import Mathlib

/-!
Shallow embedding of `sonicwall_to_mx.py` (SonicWall show-run → Meraki MX
migration tool) together with proofs about the claims of its specification.

Python strings are modelled as Lean `String` (a wrapper around `List Char`);
Python dictionaries are modelled as association lists with a `lookup` that
returns the first binding; Python exceptions that the source never catches
are modelled by an explicit `crash` / `none` result.
-/

namespace SW

/-! ## Text utilities (models of the Python `str` operations used) -/

/-- Model of Python `pat in s` (substring containment). -/
def containsList (pat : List Char) : List Char → Bool
  | [] => pat.isEmpty
  | l@(_ :: cs) => pat.isPrefixOf l || containsList pat cs

/-- `containsSub s pat` models the Python expression `pat in s`. -/
def containsSub (s pat : String) : Bool :=
  containsList pat.data s.data

/-- Worker for `repList`: when `skip` is positive the characters of an
already-matched occurrence are being consumed; at `skip = 0` a new match of
`pat` may start.  Structural recursion on the character list. -/
def repGo (pat repl : List Char) : Nat → List Char → List Char
  | _, [] => []
  | sk + 1, _ :: cs => repGo pat repl sk cs
  | 0, c :: cs =>
    if pat ≠ [] ∧ pat.isPrefixOf (c :: cs) = true then
      repl ++ repGo pat repl (pat.length - 1) cs
    else
      c :: repGo pat repl 0 cs

/-- Model of Python `str.replace` (replace every non-overlapping occurrence,
scanning left to right) on character lists. -/
def repList (pat repl : List Char) (l : List Char) : List Char :=
  repGo pat repl 0 l

/-- `rep s pat repl` models the Python expression `s.replace(pat, repl)`. -/
def rep (s pat repl : String) : String :=
  ⟨repList pat.data repl.data s.data⟩

/-- Model of Python `str.strip()` (drops surrounding whitespace). -/
def trimS (s : String) : String :=
  ⟨((s.data.dropWhile Char.isWhitespace).reverse.dropWhile Char.isWhitespace).reverse⟩

/-- Worker for `splitWs`: accumulates the current word (reversed). -/
def splitWsAux : List Char → List Char → List String
  | [], acc => if acc.isEmpty then [] else [⟨acc.reverse⟩]
  | c :: cs, acc =>
    if c.isWhitespace then
      if acc.isEmpty then splitWsAux cs []
      else (⟨acc.reverse⟩ : String) :: splitWsAux cs []
    else splitWsAux cs (c :: acc)

/-- Model of Python `str.split()` with no argument: splits on runs of
whitespace and never yields empty words. -/
def splitWs (s : String) : List String :=
  splitWsAux s.data []

/-- Model of Python `sep.join(xs)`. -/
def joinSep (sep : String) (l : List String) : String :=
  ⟨List.intercalate sep.data (l.map String.data)⟩

/-- Decimal digit accumulation for `parseNatStr`. -/
def parseNatAux : List Char → Nat → Option Nat
  | [], acc => some acc
  | c :: cs, acc =>
    if c.isDigit then parseNatAux cs (acc * 10 + (c.toNat - 48)) else none

/-- Model of Python `int(s)` restricted to plain decimal digit strings
(the only shape fed to it by the tool); anything else is a parse failure. -/
def parseNatStr (s : String) : Option Nat :=
  match s.data with
  | [] => none
  | l => parseNatAux l 0

/-- Splits a character list at `.` characters, keeping empty fields
(the behaviour of Python `str.split('.')`). -/
def splitDotAux : List Char → List Char → List (List Char)
  | [], acc => [acc.reverse]
  | c :: cs, acc =>
    if c = '.' then acc.reverse :: splitDotAux cs [] else splitDotAux cs (c :: acc)

/-- Model of `ipaddress.IPv4Address(s)` as a number: four decimal octets,
each at most 255, joined by dots; `none` models the raised
`AddressValueError` for anything else. -/
def parseIPv4 (s : String) : Option Nat :=
  match splitDotAux s.data [] with
  | [a, b, c, d] =>
    match parseNatStr ⟨a⟩, parseNatStr ⟨b⟩, parseNatStr ⟨c⟩, parseNatStr ⟨d⟩ with
    | some x, some y, some z, some w =>
      if x ≤ 255 ∧ y ≤ 255 ∧ z ≤ 255 ∧ w ≤ 255 then
        some (x * 16777216 + y * 65536 + z * 256 + w)
      else none
    | _, _, _, _ => none
  | _ => none

/-- Dotted-quad rendering of an IPv4 address value
(model of `str(ipaddress.IPv4Address(n))`). -/
def ipv4Str (n : Nat) : String :=
  Nat.repr (n / 16777216 % 256) ++ "." ++ Nat.repr (n / 65536 % 256) ++ "." ++
    Nat.repr (n / 256 % 256) ++ "." ++ Nat.repr (n % 256)

/-- First-match association-list lookup: model of a Python `dict` read,
with `(lookupS k m).isSome` modelling `k in m`. -/
def lookupS {β : Type} (k : String) : List (String × β) → Option β
  | [] => none
  | (k', v) :: t => if k = k' then some v else lookupS k t

/-- Model of the Python statement `m[k] = v` on an association list: the
first binding of `k` is overwritten in place, otherwise the binding is
appended (Python dicts keep insertion order). -/
def setA {β : Type} (k : String) (v : β) : List (String × β) → List (String × β)
  | [] => [(k, v)]
  | (k', v') :: t => if k' = k then (k, v) :: t else (k', v') :: setA k v t

/-! ## Name sanitization (one definition per source site)

`build_mx_object` and the three rule-slot parsers each sanitize names with
their own literal chain of `replace` calls; the chains differ between
sites, so each site gets its own definition here. -/

/-- Sanitization of an `address-object ipv4` name (source line 154):
`name.replace('"','').replace('.','_').replace(':','_')`. -/
def sanitize_object_name (s : String) : String :=
  rep (rep (rep s "\"" "") "." "_") ":" "_"

/-- Sanitization of an `address-object fqdn` name (source line 201):
additionally replaces `*`. -/
def sanitize_fqdn_name (s : String) : String :=
  rep (rep (rep (rep s "\"" "") "." "_") ":" "_") "*" "_"

/-- Sanitization of an `address-group ipv4` name (source line 236). -/
def sanitize_group_name (s : String) : String :=
  rep (rep (rep s "\"" "") "." "_") ":" "_"

/-- Sanitization of an `address-group ipv6` name (source line 307):
only the quotes are removed. -/
def sanitize_ipv6_group_name (s : String) : String :=
  rep s "\"" ""

/-- Sanitization of an ipv4 member reference inside a group (line 261). -/
def sanitize_group_member (s : String) : String :=
  rep (rep (rep s "\"" "") "." "_") ":" "_"

/-- Sanitization of an fqdn member reference inside an ipv6 group (line 333). -/
def sanitize_fqdn_member (s : String) : String :=
  rep (rep (rep (rep s "\"" "") "." "_") ":" "_") "*" "_"

/-- Sanitization of service object / service group names (lines 420, 443):
only the quotes are removed. -/
def sanitize_service_name (s : String) : String :=
  rep s "\"" ""

/-- Sanitization of a source rule-slot reference (source line 1027). -/
def sanitize_src_ref (s : String) : String :=
  rep (rep (rep (rep s "\"" "") "." "_") ":" "_") "*" "_"

/-- Sanitization of a destination rule-slot reference (source line 1089). -/
def sanitize_dst_ref (s : String) : String :=
  rep (rep (rep (rep s "\"" "") "." "_") ":" "_") "*" "_"

/-! ## The subnet / wildcard mask table (source lines 66–131) -/

/-- `SUBNET_MASKS`, transcribed entry by entry from the source, in source
order (a Python dict literal keeps insertion order). -/
def SUBNET_MASKS : List (String × String) :=
  [("128.0.0.0", "1"), ("127.255.255.255", "1"),
   ("192.0.0.0", "2"), ("63.255.255.255", "2"),
   ("224.0.0.0", "3"), ("31.255.255.255", "3"),
   ("240.0.0.0", "4"), ("15.255.255.255", "4"),
   ("248.0.0.0", "5"), ("7.255.255.255", "5"),
   ("252.0.0.0", "6"), ("3.255.255.255", "6"),
   ("254.0.0.0", "7"), ("1.255.255.255", "7"),
   ("255.0.0.0", "8"), ("0.255.255.255", "8"),
   ("255.128.0.0", "9"), ("0.127.255.255", "9"),
   ("255.192.0.0", "10"), ("0.63.255.255", "10"),
   ("255.224.0.0", "11"), ("0.31.255.255", "11"),
   ("255.240.0.0", "12"), ("0.15.255.255", "12"),
   ("255.248.0.0", "13"), ("0.7.255.255", "13"),
   ("255.252.0.0", "14"), ("0.3.255.255", "14"),
   ("255.254.0.0", "15"), ("0.1.255.255", "15"),
   ("255.255.0.0", "16"), ("0.0.255.255", "16"),
   ("255.255.128.0", "17"), ("0.0.0.127.255", "17"),
   ("255.255.192.0", "18"), ("0.0.63.255", "18"),
   ("255.255.224.0", "19"), ("0.0.31.255", "19"),
   ("255.255.240.0", "20"), ("0.0.15.255", "20"),
   ("255.255.248.0", "21"), ("0.0.7.255", "21"),
   ("255.255.252.0", "22"), ("0.0.3.255", "22"),
   ("255.255.254.0", "23"), ("0.0.1.255", "23"),
   ("255.255.255.0", "24"), ("0.0.0.255", "24"),
   ("255.255.255.128", "25"), ("0.0.0.127", "25"),
   ("255.255.255.192", "26"), ("0.0.0.63", "26"),
   ("255.255.255.224", "27"), ("0.0.0.31", "27"),
   ("255.255.255.240", "28"), ("0.0.0.15", "28"),
   ("255.255.255.248", "29"), ("0.0.0.7", "29"),
   ("255.255.255.252", "30"), ("0.0.0.3", "30"),
   ("255.255.255.254", "31"), ("0.0.0.1", "31"),
   ("255.255.255.255", "32"), ("0.0.0.0", "32")]

/-- Model of `content[1] + '/' + SUBNET_MASKS[content[2]]` (source line 175);
`none` models the uncaught `KeyError` raised for a mask missing from the
table. -/
def network_cidr (ip mask : String) : Option String :=
  (lookupS mask SUBNET_MASKS).map (fun p => ip ++ "/" ++ p)

/-- Modelled from the spec: the normal (netmask) dotted-quad form of a given
prefix length, used to compare the source table against the set of valid
masks the spec describes. -/
def specNormalMask (p : Nat) : String :=
  ipv4Str (2 ^ 32 - 2 ^ (32 - p))

/-- Modelled from the spec: the wildcard (inverted) dotted-quad form of a
given prefix length. -/
def specWildcardMask (p : Nat) : String :=
  ipv4Str (2 ^ (32 - p) - 1)

/-! ## Range summarization (model of `ipaddress.summarize_address_range`,
used at source line 183) -/

/-- Fuelled count of righthand zero bits; with fuel 32 this is
`_count_righthand_zero_bits(n, 32)` from the `ipaddress` module: the number
of trailing zero bits of `n`, capped at 32 (and 32 for `n = 0`). -/
def tzFuel : Nat → Nat → Nat
  | 0, _ => 0
  | f + 1, n => if n % 2 = 1 then 0 else 1 + tzFuel f (n / 2)

/-- Count of righthand zero bits capped at the 32 bits of IPv4. -/
def ctz32 (n : Nat) : Nat := tzFuel 32 n

/-- Fuelled base-2 logarithm (`f ≥ n` makes it exact). -/
def log2Fuel : Nat → Nat → Nat
  | 0, _ => 0
  | f + 1, n => if 2 ≤ n then log2Fuel f (n / 2) + 1 else 0

/-- `log2n n` is `n.bit_length() - 1` for positive `n` (the floor base-2
logarithm), written with structural recursion so that it evaluates inside
the kernel. -/
def log2n (n : Nat) : Nat := log2Fuel n n

/-- The bit count chosen by one step of `summarize_address_range`:
`min(count_righthand_zero_bits(first, 32), (last - first + 1).bit_length() - 1)`. -/
def sumNbits (first last : Nat) : Nat :=
  min (ctz32 first) (log2n (last - first + 1))

/-- Fuelled worker for `summarize`; each step advances `first` by at least
one, so fuel `last + 1 - first` makes it total. -/
def summarizeFuel : Nat → Nat → Nat → List (Nat × Nat)
  | 0, _, _ => []
  | f + 1, first, last =>
    if first ≤ last then
      (first, sumNbits first last) :: summarizeFuel f (first + 2 ^ sumNbits first last) last
    else []

/-- Model of `ipaddress.summarize_address_range(first, last)`: the greedy
list of CIDR blocks, each given as `(network address, free bits)`, so the
prefix length of a block `(a, n)` is `32 - n`. -/
def summarize (first last : Nat) : List (Nat × Nat) :=
  summarizeFuel (last + 1 - first) first last

/-- The address set of a block `(a, n)`: the `2 ^ n` addresses starting
at `a`. -/
def blockSet (b : Nat × Nat) : Set Nat :=
  Set.Ico b.1 (b.1 + 2 ^ b.2)

/-- The union of the address sets of a list of blocks. -/
def cover (l : List (Nat × Nat)) : Set Nat :=
  ⋃ b ∈ l, blockSet b

/-- A well-formed IPv4 CIDR block: at most 32 free bits, network address
aligned to the block size, and contained in the 32-bit address space. -/
def IsCidr (b : Nat × Nat) : Prop :=
  b.2 ≤ 32 ∧ b.1 % 2 ^ b.2 = 0 ∧ b.1 + 2 ^ b.2 ≤ 2 ^ 32

/-- The CIDR strings produced for a `range lo hi` child (source line 183:
`[str(ipaddr) for ipaddr in ipaddress.summarize_address_range(lo, hi)]`). -/
def rangeCidrStrings (lo hi : Nat) : List String :=
  (summarize lo hi).map (fun b => ipv4Str b.1 ++ "/" ++ Nat.repr (32 - b.2))

/-! ## `combine_like_services` (source lines 913–958) -/

/-- The loop of `combine_like_services`, with its four mutable accumulators
made explicit: `result` (ranges in input order), the deduplicated `tcp_list`
and `udp_list` of single ports, and the single ICMP-family slot `icmp_list`
(a two-element Python list, hence an optional pair here). On exhaustion the
joined TCP and UDP primitives and the ICMP slot are appended to `result`. -/
def combineAux : List (String × String) → List (String × String) →
    List String → List String → Option (String × String) → List (String × String)
  | [], result, tcp, udp, icmp =>
    result ++ (if tcp.isEmpty then [] else [("TCP", joinSep "," tcp)])
           ++ (if udp.isEmpty then [] else [("UDP", joinSep "," udp)])
           ++ icmp.toList
  | s :: rest, result, tcp, udp, icmp =>
    if containsSub s.2 "-" then combineAux rest (result ++ [s]) tcp udp icmp
    else if s.1 = "TCP" then
      if s.2 ∈ tcp then combineAux rest result tcp udp icmp
      else combineAux rest result (tcp ++ [s.2]) udp icmp
    else if s.1 = "UDP" then
      if s.2 ∈ udp then combineAux rest result tcp udp icmp
      else combineAux rest result tcp (udp ++ [s.2]) icmp
    else if s.1 = "ICMP" ∨ s.1 = "ICMPV6" then
      combineAux rest result tcp udp (some (s.1, "N/A"))
    else combineAux rest result tcp udp icmp

/-- `combine_like_services(service_objs)`. -/
def combine_like_services (svcs : List (String × String)) : List (String × String) :=
  combineAux svcs [] [] [] none

/-- The range primitives of a service list (those whose port expression
contains `-`), in input order; declarative counterpart for the combine
characterization. -/
def rangesOf (svcs : List (String × String)) : List (String × String) :=
  svcs.filter (fun s => containsSub s.2 "-")

/-- Order-preserving first-occurrence collection of the single ports of
protocol `proto`, continuing from the accumulator `acc`. -/
def collectPorts (proto : String) (acc : List String) :
    List (String × String) → List String
  | [] => acc
  | s :: rest =>
    if containsSub s.2 "-" then collectPorts proto acc rest
    else if s.1 = proto then
      if s.2 ∈ acc then collectPorts proto acc rest
      else collectPorts proto (acc ++ [s.2]) rest
    else collectPorts proto acc rest

/-- The final ICMP-family slot: the last non-range ICMP or ICMPV6 primitive
wins, starting from `acc`. -/
def lastIcmp (acc : Option (String × String)) :
    List (String × String) → Option (String × String)
  | [] => acc
  | s :: rest =>
    if containsSub s.2 "-" then lastIcmp acc rest
    else if s.1 = "TCP" then lastIcmp acc rest
    else if s.1 = "UDP" then lastIcmp acc rest
    else if s.1 = "ICMP" ∨ s.1 = "ICMPV6" then lastIcmp (some (s.1, "N/A")) rest
    else lastIcmp acc rest

/-- The combined primitive of one protocol: empty if no single ports were
collected, else the single comma-joined primitive. -/
def protoBlock (proto : String) (ports : List String) : List (String × String) :=
  if ports.isEmpty then [] else [(proto, joinSep "," ports)]

/-! ## Symbol tables and the rule-slot parsers (source lines 1011–1188) -/

/-- The process-wide symbol tables of the script (source lines 46–57),
keyed by sanitized name.  Remote ids are strings. -/
structure Tables where
  objects : List (String × String)
  fqdn_objects : List (String × String)
  range_objects : List (String × String)
  object_groups : List (String × String)
  fqdn_object_groups : List (String × String)
  range_object_groups : List (String × (List String × List String))
  group_of_groups : List (String × (List String × List String))
  service_objects : List (String × (String × String))
  service_object_groups : List (String × List (String × String))
  service_group_of_groups : List (String × List (String × String))
  deriving DecidableEq

/-- The all-empty symbol tables. -/
def emptyTables : Tables :=
  ⟨[], [], [], [], [], [], [], [], [], []⟩

/-- The value a slot parser stores into `acl['src']` / `acl['dst']`:
either one token (a plain string in Python) or a list of tokens. -/
inductive RefVal where
  | single (s : String)
  | many (l : List String)
  deriving DecidableEq

/-- Outcome of a slot parser: `ok` carries the field update ('Success' in
the source), `err` carries the returned error message, and `crash` models
an uncaught Python exception. -/
inductive PResult (α : Type) where
  | ok (a : α)
  | err (msg : String)
  | crash
  deriving DecidableEq

/-- `OBJ[id]` token. -/
def objTok (id : String) : String := "OBJ[" ++ id ++ "]"

/-- `GRP[id]` token. -/
def grpTok (id : String) : String := "GRP[" ++ id ++ "]"

/-- `source_parser(src_address, acl)` (source lines 1011–1070); the result
carries the value assigned to `acl['src']` (`none` when the function falls
through all branches without assigning). -/
def parse_source (t : Tables) (src_address : String) : PResult (Option RefVal) :=
  if containsSub src_address "any" then .ok (some (.single "any"))
  else if containsSub src_address "name" then
    let src_obj := sanitize_src_ref (trimS (rep src_address "name" ""))
    match lookupS src_obj t.objects with
    | some id => .ok (some (.single (objTok id)))
    | none =>
      match lookupS (src_obj ++ "__range__") t.range_objects with
      | some id => .ok (some (.single (grpTok id)))
      | none =>
        if (lookupS src_obj t.fqdn_objects).isSome then
          .err "FQDN Source Address not supported in Meraki"
        else .err "No valid Source Object exists"
  else if containsSub src_address "group" then
    let g := sanitize_src_ref (trimS (rep src_address "group" ""))
    match lookupS g t.object_groups with
    | some id => .ok (some (.single (grpTok id)))
    | none =>
      match lookupS (g ++ "__range__") t.range_object_groups with
      | some ol => .ok (some (.many (ol.1.map objTok ++ ol.2.map grpTok)))
      | none =>
        match lookupS (g ++ "__fqdn__split") t.fqdn_object_groups with
        | some fid =>
          -- `object_groups[g + '__ipv4__split']` is a bare dict index:
          -- a missing key is an uncaught KeyError
          match lookupS (g ++ "__ipv4__split") t.object_groups with
          | some iid => .ok (some (.many [grpTok fid, grpTok iid]))
          | none => .crash
        | none =>
          match lookupS g t.group_of_groups with
          | some ol => .ok (some (.many (ol.1.map objTok ++ ol.2.map grpTok)))
          | none =>
            if (lookupS g t.fqdn_object_groups).isSome then
              .err "FQDN Source Address Group not supported in Meraki"
            else .err "No valid Source Object Group exists (group contains no valid objects)"
  else .ok none

/-- `destination_parser(dst_address, acl)` (source lines 1073–1135).  The
range-group branch reproduces the source faithfully: the membership test is
against `range_objects` (not `range_object_groups`), and the subsequent
subscript `dst_obj_group[dst_obj_group + '__range__']` indexes a *string*
with a string key, an uncaught `TypeError`, modelled as `crash`. -/
def parse_destination (t : Tables) (dst_address : String) : PResult (Option RefVal) :=
  if containsSub dst_address "any" then .ok (some (.single "any"))
  else if containsSub dst_address "name" then
    let dst_obj := sanitize_dst_ref (trimS (rep dst_address "name" ""))
    match lookupS dst_obj t.objects with
    | some id => .ok (some (.single (objTok id)))
    | none =>
      match lookupS dst_obj t.fqdn_objects with
      | some id => .ok (some (.single (objTok id)))
      | none =>
        match lookupS (dst_obj ++ "__range__") t.range_objects with
        | some id => .ok (some (.single (grpTok id)))
        | none => .err "No valid Destination Object exists"
  else if containsSub dst_address "group" then
    let g := sanitize_dst_ref (trimS (rep dst_address "group" ""))
    match lookupS g t.object_groups with
    | some id => .ok (some (.single (grpTok id)))
    | none =>
      match lookupS g t.fqdn_object_groups with
      | some id => .ok (some (.single (grpTok id)))
      | none =>
        if (lookupS (g ++ "__range__") t.range_objects).isSome then
          .crash
        else
          match lookupS (g ++ "__fqdn__split") t.fqdn_object_groups with
          | some fid =>
            match lookupS (g ++ "__ipv4__split") t.object_groups with
            | some iid => .ok (some (.many [grpTok fid, grpTok iid]))
            | none => .crash
          | none =>
            match lookupS g t.group_of_groups with
            | some ol => .ok (some (.many (ol.1.map objTok ++ ol.2.map grpTok)))
            | none => .err "No valid Destination Object Group exists (group contains no valid objects)"
  else .ok none

/-- `service_parser(service, acl)` (source lines 1138–1188); the result
carries the final value of `acl['services']`.  Note the `any` test and the
`name` test are *independent* `if`s in the source, so an `any` match seeds
the list and a `name`/`group` match may still run afterwards. -/
def parse_service (t : Tables) (service : String) : PResult (List (String × String)) :=
  let base : List (String × String) :=
    if containsSub service "any" then [("any", "any")] else []
  if containsSub service "name" then
    let service_obj := rep (trimS (rep service "name" "")) "\"" ""
    match lookupS service_obj t.service_objects with
    | some v => .ok (base ++ [v])
    | none => .err "No valid Service Object found in local list (unsupported protocol, no port numbers, etc.)"
  else if containsSub service "group" then
    let g := rep (trimS (rep service "group" "")) "\"" ""
    match lookupS g t.service_object_groups with
    | some svcs => .ok (base ++ combine_like_services svcs)
    | none =>
      match lookupS g t.service_group_of_groups with
      | some svcs => .ok (base ++ combine_like_services svcs)
      | none => .err "No valid Service Object Group found in local list (no valid service objects present)"
  else .ok base

/-! ## Rule finalization and the Default-Zone Map (source lines 1271–1287) -/

/-- The `acl` dictionary built up by `parse_line`: every field is optional
because the source tests `k in acl` before using a field. -/
structure AclDict where
  src_zone : Option String
  dst_zone : Option String
  action : Option String
  comment : Option String
  src_port : Option String
  src : Option RefVal
  dst : Option RefVal
  services : Option (List (String × String))
  deriving DecidableEq

/-- A fully-resolved rule, as appended to `acl_list` by `parse_rules`. -/
structure ResolvedAcl where
  src_zone : String
  dst_zone : String
  action : String
  comment : Option String
  src_port : Option String
  src : RefVal
  dst : RefVal
  services : List (String × String)
  deriving DecidableEq

/-- `default_zone_map`: outer zone → (inner zone → default action). -/
abbrev ZoneMap : Type := List (String × List (String × String))

/-- Reads one cell of the Default-Zone Map. -/
def cellLookup (m : ZoneMap) (srcz dstz : String) : Option String :=
  (lookupS srcz m).bind (fun inner => lookupS dstz inner)

/-- Outcome of the tail of `parse_line`. -/
inductive FinalizeResult where
  | rule (r : ResolvedAcl)
  | skip (msg : String)
  | crash
  deriving DecidableEq

/-- The tail of `parse_line` (source lines 1271–1287): the completeness
check, the any/any/any/any test with its Default-Zone Map update, and the
final result.  `acl['services'][0]` on an empty list is an uncaught
`IndexError`, modelled as `crash` (it is only reached when `src` and `dst`
are both the literal `any`, since Python `and` short-circuits). -/
def finalize_acl (acl : AclDict) (m : ZoneMap) : FinalizeResult × ZoneMap :=
  match acl.action, acl.src, acl.dst, acl.services, acl.src_zone, acl.dst_zone with
  | some action, some src, some dst, some services, some src_zone, some dst_zone =>
    if src = .single "any" ∧ dst = .single "any" then
      match services with
      | [] => (.crash, m)
      | s0 :: _ =>
        if s0.1 = "any" ∧ s0.2 = "any" then
          let m' :=
            match lookupS src_zone m, lookupS dst_zone m with
            | some inner, some _ =>
              setA src_zone
                (setA dst_zone (if action = "allow" then "allow" else "deny") inner) m
            | _, _ => m
          (.skip "Any Any Any Any Rule placed in mapping file. Skipping", m')
        else
          (.rule ⟨src_zone, dst_zone, action, acl.comment, acl.src_port, src, dst, services⟩, m)
    else
      (.rule ⟨src_zone, dst_zone, action, acl.comment, acl.src_port, src, dst, services⟩, m)
  | _, _, _, _, _, _ => (.skip "Invalid line", m)

/-! ## Rule flattening (`create_mx_rules`, source lines 1354–1400) -/

/-- One flattened MX firewall rule record. -/
structure MxRule where
  comment : String
  policy : String
  protocol : String
  srcPort : String
  srcCidr : String
  destCidr : String
  destPort : String
  deriving DecidableEq

/-- The `combos[i]` coordinate list: a list value contributes its elements,
a plain value contributes itself. -/
def refToList : RefVal → List String
  | .single s => [s]
  | .many l => l

/-- The protocol translation of `create_mx_rules` (source lines 1378–1383):
`ICMP` → `icmp`, `ICMPV6` → `icmp6`, anything else passes through
unchanged. -/
def protoMap (p : String) : String :=
  if p = "ICMP" then "icmp" else if p = "ICMPV6" then "icmp6" else p

/-- The cartesian-product flattening of one resolved rule into MX rule
records (source lines 1354–1400), in `itertools.product` order. -/
def flatten_acl (acl : ResolvedAcl) : List MxRule :=
  (refToList acl.src).flatMap (fun s =>
    (refToList acl.dst).flatMap (fun d =>
      acl.services.map (fun sv =>
        { comment := acl.comment.getD ""
          policy := acl.action
          protocol := protoMap sv.1
          srcPort := acl.src_port.getD "any"
          srcCidr := s
          destCidr := d
          destPort := if sv.2 = "N/A" then "any" else sv.2 })))

/-! ## The multi-entity splitter (`duplicate_splitter`, source lines 487–537) -/

/-- A configuration stanza: the header line plus the texts of its child
lines (the `.text`/`.children` view of a `ciscoconfparse` object). -/
structure Stanza where
  text : String
  children : List String
  deriving DecidableEq

/-- `[idx + 1 for idx, val in enumerate(children) if 'exit' in val.text]`,
generalized over the running index. -/
def exitsIdxFrom (n : Nat) : List String → List Nat
  | [] => []
  | c :: cs =>
    if containsSub c "exit" then (n + 1) :: exitsIdxFrom (n + 1) cs
    else exitsIdxFrom (n + 1) cs

/-- The `idx_list` of `duplicate_splitter`. -/
def exitsIdx (children : List String) : List Nat :=
  exitsIdxFrom 0 children

/-- The second list of the `zip` in `duplicate_splitter`:
`idx_list + ([size] if idx_list[-1] != size else [])`. -/
def endsOf (children : List String) : List Nat :=
  exitsIdx children ++
    (if (exitsIdx children).getLastD 0 = children.length then [] else [children.length])

/-- The Python slice `children[i:j]` for a zipped index pair. -/
def sliceF (children : List String) (p : Nat × Nat) : List String :=
  (children.drop p.1).take (p.2 - p.1)

/-- `res`: the child-list slices `children[i:j]` for the zipped index
pairs (Python `zip` truncates to the shorter list). -/
def resOf (children : List String) : List (List String) :=
  ((0 :: exitsIdx children).zip (endsOf children)).map (sliceF children)

/-- The header text of the synthetic clone, by object type (the source's
`if/elif` chain on `object_type`; an unknown type leaves the deep-copied
header unchanged).  `first` is `res[1][0].text`. -/
def cloneHeader (object_type : String) (first : String) (origText : String) : String :=
  if object_type = "ipv4" then "address-object ipv4 " ++ rep (trimS first) "name " ""
  else if object_type = "ipv4-group" then "address-group ipv4 " ++ rep (trimS first) "name " ""
  else if object_type = "ipv6-group" then "address-group ipv6 " ++ rep (trimS first) "name " ""
  else if object_type = "ipv6" then "address-object ipv6 " ++ rep (trimS first) "name " ""
  else if object_type = "fqdn" then "address-object fqdn " ++ rep (trimS first) "name " ""
  else if object_type = "rule" then origText ++ " (Sub Rule)"
  else origText

/-- The per-element body of the `duplicate_splitter` loop: returns the
(possibly truncated) element together with the synthetic clone, if any.
`res[1]` is provably non-empty whenever `len(res) > 1`, so the Python
subscript `res[1][0]` is modelled with `headD`. -/
def splitOne (object_type : String) (e : Stanza) : Stanza × Option Stanza :=
  let idx := exitsIdx e.children
  if idx.isEmpty then (e, none)
  else
    let res := resOf e.children
    if res.length > 1 then
      ({ e with children := res.headD [] },
       some ⟨cloneHeader object_type ((res.getD 1 []).headD "") e.text, res.getD 1 []⟩)
    else (e, none)

/-- `duplicate_splitter(object_list, object_type)`: the source mutates each
element of `object_list` in place and returns the list of new entries; the
first component is the mutated list and the second the return value. -/
def duplicate_splitter (object_list : List Stanza) (object_type : String) :
    List Stanza × List Stanza :=
  (object_list.map (fun e => (splitOne object_type e).1),
   object_list.filterMap (fun e => (splitOne object_type e).2))

/-- Modelled from the spec: the partition of a child list at `exit`
boundaries, written as a direct recursion (each partition ends with its
`exit` line; a trailing run without `exit` forms the final partition; a
trailing empty partition is not produced).  Used as the declarative side of
the splitter characterization. -/
def partsAux (acc : List String) : List String → List (List String)
  | [] => if acc.isEmpty then [] else [acc.reverse]
  | l :: ls =>
    if containsSub l "exit" then (acc.reverse ++ [l]) :: partsAux [] ls
    else partsAux (l :: acc) ls

/-- The partitions of a child list at `exit` boundaries. -/
def partitionsAtExits (children : List String) : List (List String) :=
  partsAux [] children

/-- Modelled from the spec: what the splitter actually computes, stated via
`partitionsAtExits`: at most one partition leaves the element unchanged;
otherwise the element keeps the first partition and exactly one clone is
built from the second (later partitions are dropped). -/
def splitSpec (object_type : String) (e : Stanza) : Stanza × Option Stanza :=
  let P := partitionsAtExits e.children
  if P.length ≤ 1 then (e, none)
  else
    ({ e with children := P.headD [] },
     some ⟨cloneHeader object_type ((P.getD 1 []).headD "") e.text, P.getD 1 []⟩)

/-! ## The IPv4 address-object pass (`build_mx_object` case `'object'`,
source lines 152–196, and its creation loop, source lines 595–641) -/

/-- The keys accumulated into `mx_object` by the child-line loop. -/
structure MxObjFields where
  hasType : Bool
  cidr : Option String
  range : Option (List String)
  deriving DecidableEq

/-- Processing of one child line of an ipv4 address-object stanza (source
lines 167–185).  `none` models an uncaught exception: `content[0]` or
`content[1]` on a too-short split, `SUBNET_MASKS[...]` on an unknown mask,
`IPv4Address` on a malformed address, and `summarize_address_range` on an
inverted range. -/
def objLineStep (f : MxObjFields) (line : String) : Option MxObjFields :=
  match splitWs line with
  | [] => none
  | w :: ws =>
    if w = "host" then
      match ws with
      | ip :: _ => some { f with hasType := true, cidr := some (ip ++ "/32") }
      | [] => none
    else if w = "network" then
      match ws with
      | ip :: mask :: _ =>
        match network_cidr ip mask with
        | some c => some { f with hasType := true, cidr := some c }
        | none => none
      | _ => none
    else if w = "range" then
      match ws with
      | lo :: hi :: _ =>
        match parseIPv4 lo, parseIPv4 hi with
        | some l, some h =>
          if l ≤ h then some { f with hasType := true, range := some (rangeCidrStrings l h) }
          else none
        | _, _ => none
      | _ => none
    else if w = "zone" then
      match ws with
      | _ :: _ => some f
      | [] => none
    else some f

/-- Result of `build_mx_object(console, 'object', element, broken_fp)`:
either the built object, or `None` together with the lines written to the
unprocessed-objects file, or an uncaught exception. -/
inductive BuildRes where
  | obj (name : String) (f : MxObjFields)
  | skipped (journal : List String)
  | crash
  deriving DecidableEq

/-- `build_mx_object` for `object_type == 'object'`.  The duplicate branch
(source lines 194–196) only prints to the console: it returns `None`
*without* writing to the unprocessed-objects file. -/
def build_object (objects range_objects : List (String × String)) (e : Stanza) : BuildRes :=
  let name := sanitize_object_name (rep e.text "address-object ipv4 " "")
  if (lookupS name objects).isNone ∧ (lookupS (name ++ "__range__") range_objects).isNone then
    if e.children.isEmpty then .skipped []
    else
      match e.children.foldl (fun acc line => acc.bind (fun f => objLineStep f line))
          (some ⟨false, none, none⟩) with
      | none => .crash
      | some f =>
        if f.hasType then .obj name f
        else .skipped [e.text ++ "\n\t- Reason: No valid host or network line"]
  else .skipped []

/-- State threaded through the ipv4 object-creation loop.  Remote ids
returned by the Dashboard are abstracted as a fresh-id counter rendered to
strings; the claims settled below depend only on table keys and the
journal. -/
structure ObjPass where
  objects : List (String × String)
  range_objects : List (String × String)
  journal : List String
  nextId : Nat
  deriving DecidableEq

/-- One iteration of the `Creating IPv4 Network Objects` loop (source lines
595–641): build the object, then either create one remote CidrObject per
range-cover element followed by the containing `<name>__range__` group, or
create a single remote CidrObject.  `none` models an uncaught exception. -/
def processIpv4Object (st : ObjPass) (e : Stanza) : Option ObjPass :=
  match build_object st.objects st.range_objects e with
  | .crash => none
  | .skipped j => some { st with journal := st.journal ++ j }
  | .obj name f =>
    match f.range with
    | some cidrs =>
      if cidrs.length > 0 then
        some { st with
          range_objects :=
            st.range_objects ++ [(name ++ "__range__", Nat.repr (st.nextId + cidrs.length))]
          nextId := st.nextId + cidrs.length + 1 }
      else some st
    | none =>
      match f.cidr with
      | some _ =>
        some { st with
          objects := st.objects ++ [(name, Nat.repr st.nextId)]
          nextId := st.nextId + 1 }
      | none => none

/-- The whole ipv4 address-object pass over a stanza list. -/
def runIpv4Pass (st : ObjPass) (es : List Stanza) : Option ObjPass :=
  es.foldl (fun acc e => acc.bind (fun s => processIpv4Object s e)) (some st)

/-! ## The service-object pass (`build_mx_object` case `'service'`,
source lines 370–416, and its loop, source lines 839–853) -/

/-- `s.startswith(pre)`. -/
def strStartsWith (s pre : String) : Bool :=
  pre.data.isPrefixOf s.data

/-- Splits a character list at every occurrence of `sep`, keeping empty
fields (the behaviour of Python `str.split(sep)` for a one-character
separator). -/
def splitChAux (sep : Char) : List Char → List Char → List (List Char)
  | [], acc => [acc.reverse]
  | c :: cs, acc =>
    if c = sep then acc.reverse :: splitChAux sep cs []
    else splitChAux sep cs (c :: acc)

/-- Python `s.split(sep)` for a one-character separator. -/
def splitCh (sep : Char) (s : String) : List String :=
  (splitChAux sep s.data []).map (fun l => ⟨l⟩)

/-- Result of `build_mx_object(console, 'service', element, broken_fp)`.
The `(protocol, port)` pair folds in the caller's
`service_element['port'] if 'port' in service_element else 'N/A'` default
(source line 850), so an ICMP-family primitive carries `N/A`. -/
inductive SvcBuild where
  | svc (name : String) (v : String × String)
  | skipped (journal : List String)
  | crash
  deriving DecidableEq

/-- `build_mx_object` for `object_type == 'service'` (source lines
370–416).  There is *no* duplicate-name check in this branch.  `crash`
models the uncaught `IndexError`s of the bare subscripts on too-short
splits.  Note the asymmetry of the source: an invalid quoted service
writes a journal record, an invalid unquoted one only prints. -/
def build_service (e : Stanza) : SvcBuild :=
  let element := rep e.text "service-object " ""
  match element.data with
  | [] => .crash
  | c :: _ =>
    if c = '"' then
      match splitCh '"' element with
      | _ :: name :: rest :: _ =>
        match splitWs (trimS rest) with
        | [] => .crash
        | w :: wtail =>
          if w = "TCP" ∨ w = "UDP" then
            match wtail with
            | p1 :: p2 :: _ => .svc name (w, if p1 = p2 then p1 else p1 ++ "-" ++ p2)
            | _ => .crash
          else if w = "ICMP" ∨ w = "ICMPV6" then .svc name (w, "N/A")
          else .skipped ["service object " ++ name ++
            "\n\t- Reason: Invalid Service Object (service not supported, missing ports, etc.)"]
      | _ => .crash
    else
      match splitWs element with
      | [] => .crash
      | name :: wtail =>
        match wtail with
        | [] => .crash
        | w :: wtail2 =>
          if w = "TCP" ∨ w = "UDP" then
            match wtail2 with
            | p1 :: p2 :: _ => .svc name (w, if p1 = p2 then p1 else p1 ++ "-" ++ p2)
            | _ => .crash
          else if w = "ICMP" ∨ w = "ICMPV6" then .svc name (w, "N/A")
          else .skipped []

/-- State threaded through the `Creating Service Objects` loop. -/
structure SvcPass where
  service_objects : List (String × (String × String))
  journal : List String
  deriving DecidableEq

/-- One iteration of the service-object loop (source lines 839–853):
`service_objects[service_element['name']] = [...]` is a plain dict
assignment — an existing binding of the same name is overwritten. -/
def processServiceObject (st : SvcPass) (e : Stanza) : Option SvcPass :=
  match build_service e with
  | .crash => none
  | .skipped j => some { st with journal := st.journal ++ j }
  | .svc n v => some { st with service_objects := setA n v st.service_objects }

/-- The whole service-object pass over a stanza list. -/
def runServicePass (st : SvcPass) (es : List Stanza) : Option SvcPass :=
  es.foldl (fun acc e => acc.bind (fun s => processServiceObject s e)) (some st)

/-! ## The non-nested ipv4 address-group pass (`build_mx_object` case
`'group'`, source lines 234–302, and its loop, source lines 697–728) -/

/-- State threaded through the `Creating IPv4 Network Object Groups`
loop. -/
structure GroupPass where
  objects : List (String × String)
  range_objects : List (String × String)
  object_groups : List (String × String)
  range_object_groups : List (String × (List String × List String))
  journal : List String
  nextId : Nat
  deriving DecidableEq

/-- The `mx_object` lists accumulated by the group member loop, plus the
journal lines written while scanning the members. -/
structure GroupAcc where
  objectIds : List String
  rangeIds : List String
  gog : List String
  adds : List String
  deriving DecidableEq

/-- Processing of one child line of an ipv4 address-group stanza (source
lines 253–299).  The source's final `else` in the member branch (indexing
`object_groups[content]`) is unreachable: the guard above it already
skipped any member that is in neither `objects` nor `range_objects`. -/
def group_member_step (st : GroupPass) (etext : String) (acc : GroupAcc)
    (line : String) : GroupAcc :=
  let content := trimS line
  if strStartsWith content "address-object ipv4" then
    let member := sanitize_group_member (trimS (rep content "address-object ipv4" ""))
    if (lookupS member st.objects).isNone ∧
        (lookupS (member ++ "__range__") st.range_objects).isNone then
      { acc with adds := acc.adds ++
          [etext ++ "\n\t- Reason: Invalid object \"" ++ member ++ "\" in group \"" ++
            etext ++ "\""] }
    else
      match lookupS member st.objects with
      | some id => { acc with objectIds := acc.objectIds ++ [id] }
      | none =>
        match lookupS (member ++ "__range__") st.range_objects with
        | some id => { acc with rangeIds := acc.rangeIds ++ [id] }
        | none => acc
  else if strStartsWith content "address-group ipv4" then
    let member := sanitize_group_member (trimS (rep content "address-group ipv4" ""))
    match lookupS member st.object_groups with
    | some id => { acc with gog := acc.gog ++ [id] }
    | none => { acc with adds := acc.adds ++
        [etext ++ "\n\t- Reason: Invalid object \"" ++ member ++ "\" in group \"" ++
          etext ++ "\""] }
  else acc

/-- Result of `build_mx_object(console, 'group', element, broken_fp)`. -/
inductive GroupBuild where
  | obj (name : String) (acc : GroupAcc)
  | skipped (adds : List String)
  deriving DecidableEq

/-- `build_mx_object` for `object_type == 'group'` (source lines 234–302).
The duplicate test at source line 239 checks `object_groups` *only*: a
name whose first definition was deferred into `range_object_groups` is not
caught.  The duplicate branch (lines 300–302) prints to the console and
returns `None` without any journal write. -/
def build_group (st : GroupPass) (e : Stanza) : GroupBuild :=
  let name := sanitize_group_name (rep e.text "address-group ipv4 " "")
  if (lookupS name st.object_groups).isNone then
    if e.children.isEmpty then .skipped []
    else
      .obj name (e.children.foldl (group_member_step st e.text) ⟨[], [], [], []⟩)
  else .skipped []

/-- One iteration of the non-nested ipv4 group loop (source lines
697–728): a group with range members is deferred into
`range_object_groups` by a plain dict assignment (line 710, overwriting
any existing binding); otherwise a remote group is created when any
object id survived, else a no-valid-entries record is journalled. -/
def processIpv4Group (st : GroupPass) (e : Stanza) : GroupPass :=
  match build_group st e with
  | .skipped adds => { st with journal := st.journal ++ adds }
  | .obj name acc =>
    if acc.rangeIds.length > 0 then
      { st with
        range_object_groups :=
          setA (name ++ "__range__") (acc.objectIds, acc.rangeIds) st.range_object_groups
        journal := st.journal ++ acc.adds }
    else if acc.objectIds.length > 0 then
      { st with
        object_groups := setA name (Nat.repr st.nextId) st.object_groups
        journal := st.journal ++ acc.adds
        nextId := st.nextId + 1 }
    else
      { st with journal := st.journal ++ acc.adds ++
          ["address-group ipv4 " ++ name ++ "\n\t- Reason: \"" ++ name ++
            "\" contains no valid entries"] }

/-! # Theorems -/

/-- Counterexample to the claim C4 statement: the same identifier does not
sanitize to the same key at every site.  `A.B` keeps its dot as an
`address-group ipv6` name but becomes `A_B` as a rule reference, and `A*B`
keeps its star as an `address-object ipv4` name but becomes `A_B` as a rule
reference. -/
theorem c4_counterexample :
    sanitize_ipv6_group_name "A.B" = "A.B" ∧ sanitize_dst_ref "A.B" = "A_B" ∧
    sanitize_object_name "A*B" = "A*B" ∧ sanitize_src_ref "A*B" = "A_B" ∧
    ("A.B" : String) ≠ "A_B" ∧ ("A*B" : String) ≠ "A_B" := by
  refine ⟨by decide, by decide, by decide, by decide, by decide, by decide⟩

/-- Claim C4 (amended): sanitization is per-site, not uniform.  All sites
remove every `"`; ipv4 object names, ipv4 group names and ipv4 member
references additionally replace `.` and `:` (but not `*`); fqdn names, fqdn
member references and rule-slot references additionally replace `*`; ipv6
group names and service names only remove quotes.  Within each of those
families the sanitizers agree on every input. -/
theorem c4_sanitization_by_site (s : String) :
    sanitize_object_name s = sanitize_group_name s ∧
    sanitize_object_name s = sanitize_group_member s ∧
    sanitize_fqdn_name s = sanitize_fqdn_member s ∧
    sanitize_fqdn_name s = sanitize_src_ref s ∧
    sanitize_src_ref s = sanitize_dst_ref s ∧
    sanitize_ipv6_group_name s = rep s "\"" "" ∧
    sanitize_service_name s = rep s "\"" "" ∧
    sanitize_src_ref s = rep (sanitize_object_name s) "*" "_" :=
  ⟨rfl, rfl, rfl, rfl, rfl, rfl, rfl, rfl⟩

/-- Witness for `c4_sanitization_by_site` at a concrete name. -/
theorem c4_sanitization_witness :
    sanitize_object_name "Web.Srv:1" = sanitize_group_name "Web.Srv:1" ∧
    sanitize_fqdn_name "Web.Srv:1" = sanitize_src_ref "Web.Srv:1" :=
  ⟨(c4_sanitization_by_site "Web.Srv:1").1, (c4_sanitization_by_site "Web.Srv:1").2.2.2.1⟩

/-- Claim C8: the mask table is broken at the /17 wildcard form.  The valid
dotted-quad wildcard mask of /17 is `0.0.127.255`, which is *not* a key of
`SUBNET_MASKS`; the table instead carries the malformed five-octet key
`0.0.0.127.255`.  A `network N 0.0.127.255` child therefore raises an
uncaught `KeyError` (modelled by `network_cidr _ _ = none`) instead of
producing `N/17` or skipping the object.  Every other wildcard form and all
32 normal forms with positive prefix length are present. -/
theorem c8_mask_table :
    specWildcardMask 17 = "0.0.127.255" ∧
    lookupS "0.0.127.255" SUBNET_MASKS = none ∧
    ("0.0.0.127.255", "17") ∈ SUBNET_MASKS ∧
    network_cidr "10.0.0.0" "0.0.127.255" = none ∧
    lookupS (specNormalMask 17) SUBNET_MASKS = some "17" ∧
    ((List.range 32).filter
      (fun i => (lookupS (specWildcardMask (i + 1)) SUBNET_MASKS).isNone)) = [16] ∧
    ((List.range 32).filter
      (fun i => (lookupS (specNormalMask (i + 1)) SUBNET_MASKS).isNone)) = [] := by
  refine ⟨by decide, by decide, by decide, by decide, by decide, by decide, by decide⟩

/-- Claim C10: group-reference resolution is *not* applied identically for
the source and destination slots.  With `X__range__` a key of
`range_object_groups`, the source slot resolves `group X` to the
`OBJ[...] ++ GRP[...]` token list, while the destination slot (whose
membership test is against `range_objects` instead) falls through and
reports `No valid Destination Object Group exists`; and when `X__range__`
*is* a key of `range_objects`, the destination branch executes
`dst_obj_group[dst_obj_group + '__range__']`, subscripting a string with a
string key — an uncaught `TypeError`, modelled by `crash`. -/
theorem c10_destination_range_bug :
    parse_source
        { emptyTables with range_object_groups := [("X__range__", (["o1", "o2"], ["g1"]))] }
        "group X"
      = .ok (some (.many ["OBJ[o1]", "OBJ[o2]", "GRP[g1]"])) ∧
    parse_destination
        { emptyTables with range_object_groups := [("X__range__", (["o1", "o2"], ["g1"]))] }
        "group X"
      = .err "No valid Destination Object Group exists (group contains no valid objects)" ∧
    parse_destination { emptyTables with range_objects := [("X__range__", "r1")] } "group X"
      = .crash := by
  refine ⟨by decide, by decide, by decide⟩

/-- Counterexample to the claim C2 statement: a rule whose service is a TCP
primitive flattens to a record with `protocol = "TCP"` — the protocol is
*not* lowercased, so it is not in `{tcp, udp, icmp, icmp6, any}`. -/
theorem c2_counterexample :
    flatten_acl ⟨"LAN", "WAN", "allow", none, none,
        .single "OBJ[1]", .single "OBJ[2]", [("TCP", "80")]⟩
      = [⟨"", "allow", "TCP", "any", "OBJ[1]", "OBJ[2]", "80"⟩] ∧
    ("TCP" : String) ∉ (["tcp", "udp", "icmp", "icmp6", "any"] : List String) := by
  refine ⟨by decide, by decide⟩

/-- Claim C2 (amended): for every flattened record of a rule whose service
protocols come from the parser's domain `{any, TCP, UDP, ICMP, ICMPV6}` and
whose action is `allow` or `deny`: the protocol is `icmp` for `ICMP`,
`icmp6` for `ICMPV6`, and otherwise the service protocol *unchanged* (so
`TCP`/`UDP` stay uppercase), hence lies in `{any, TCP, UDP, icmp, icmp6}`;
and the policy is the rule's action, hence in `{allow, deny}`. -/
theorem c2_protocol_policy (acl : ResolvedAcl) (r : MxRule)
    (hr : r ∈ flatten_acl acl)
    (hs : ∀ sv ∈ acl.services, sv.1 ∈ (["any", "TCP", "UDP", "ICMP", "ICMPV6"] : List String))
    (ha : acl.action ∈ (["allow", "deny"] : List String)) :
    r.protocol ∈ (["any", "TCP", "UDP", "icmp", "icmp6"] : List String) ∧
    r.policy ∈ (["allow", "deny"] : List String) := by
  simp only [flatten_acl, List.mem_flatMap, List.mem_map] at hr
  obtain ⟨s, -, d, -, sv, hsv, heq⟩ := hr
  have hproto := hs sv hsv
  subst heq
  refine ⟨?_, ha⟩
  simp only [List.mem_cons, List.not_mem_nil, or_false] at hproto ⊢
  rcases hproto with h | h | h | h | h <;> simp [protoMap, h]

/-- Witness for `c2_protocol_policy` at a concrete rule with an ICMP
service. -/
theorem c2_witness :
    ((⟨"", "allow", "icmp", "any", "OBJ[1]", "OBJ[2]", "any"⟩ : MxRule) ∈
        flatten_acl ⟨"LAN", "WAN", "allow", none, none,
          .single "OBJ[1]", .single "OBJ[2]", [("ICMP", "N/A")]⟩) ∧
    (("icmp" : String) ∈ (["any", "TCP", "UDP", "icmp", "icmp6"] : List String) ∧
     ("allow" : String) ∈ (["allow", "deny"] : List String)) :=
  ⟨by decide,
   c2_protocol_policy
     ⟨"LAN", "WAN", "allow", none, none, .single "OBJ[1]", .single "OBJ[2]", [("ICMP", "N/A")]⟩
     ⟨"", "allow", "icmp", "any", "OBJ[1]", "OBJ[2]", "any"⟩
     (by decide) (by decide) (by decide)⟩

/-- Counterexample to the claim C6 statement: a group containing both an
ICMP and an ICMPV6 primitive does *not* yield one primitive of each; the
single `icmp_list` slot is overwritten, so only the last ICMP-family
primitive survives. -/
theorem c6_counterexample :
    combine_like_services [("ICMP", "N/A"), ("ICMPV6", "N/A")] = [("ICMPV6", "N/A")] ∧
    ("ICMP", "N/A") ∉ combine_like_services [("ICMP", "N/A"), ("ICMPV6", "N/A")] := by
  refine ⟨by decide, by decide⟩

/-- The fuelled trailing-zero count never exceeds its fuel. -/
theorem tzFuel_le (f : Nat) : ∀ n, tzFuel f n ≤ f := by
  induction f with
  | zero => intro n; simp [tzFuel]
  | succ f ih =>
    intro n
    simp only [tzFuel]
    split
    · omega
    · have := ih (n / 2)
      omega

/-- `2 ^ tzFuel f n` divides `n`. -/
theorem pow_tzFuel_dvd (f : Nat) : ∀ n, 2 ^ tzFuel f n ∣ n := by
  induction f with
  | zero => intro n; simp [tzFuel]
  | succ f ih =>
    intro n
    by_cases hodd : n % 2 = 1
    · simp [tzFuel, hodd]
    · have h2 : 2 * (n / 2) = n := by omega
      simp only [tzFuel, if_neg hodd]
      have hd : 2 ^ (1 + tzFuel f (n / 2)) ∣ 2 * (n / 2) := by
        rw [pow_add, pow_one]
        exact mul_dvd_mul_left 2 (ih (n / 2))
      rwa [h2] at hd

/-- Maximality of the fuelled trailing-zero count: any `k ≤ f` with
`2 ^ k ∣ n` is at most `tzFuel f n`. -/
theorem le_tzFuel (f : Nat) : ∀ k n, k ≤ f → 2 ^ k ∣ n → k ≤ tzFuel f n := by
  induction f with
  | zero => intro k n hk _; omega
  | succ f ih =>
    intro k n hk hd
    rcases k with _ | k
    · omega
    · have h2 : (2 : Nat) ∣ n := dvd_trans (dvd_pow_self 2 (Nat.succ_ne_zero k)) hd
      have hodd : ¬ n % 2 = 1 := by omega
      simp only [tzFuel, if_neg hodd]
      obtain ⟨m, hm⟩ := hd
      have hn2 : n / 2 = 2 ^ k * m := by
        rw [hm, pow_succ]
        rw [show 2 ^ k * 2 * m = 2 * (2 ^ k * m) by ring]
        exact Nat.mul_div_cancel_left _ (by norm_num)
      have := ih k (n / 2) (by omega) ⟨m, hn2⟩
      omega

/-- `ctz32` is bounded by 32. -/
theorem ctz32_le (n : Nat) : ctz32 n ≤ 32 := tzFuel_le 32 n

/-- `2 ^ ctz32 n` divides `n`. -/
theorem pow_ctz32_dvd (n : Nat) : 2 ^ ctz32 n ∣ n := pow_tzFuel_dvd 32 n

/-- Maximality of `ctz32`. -/
theorem le_ctz32 (k n : Nat) (hk : k ≤ 32) (hd : 2 ^ k ∣ n) : k ≤ ctz32 n :=
  le_tzFuel 32 k n hk hd

/-- Small arguments give logarithm 0 at any fuel. -/
theorem log2Fuel_small (f : Nat) (n : Nat) (h : n < 2) : log2Fuel f n = 0 := by
  rcases f with _ | f
  · rfl
  · simp only [log2Fuel]
    rw [if_neg (by omega)]

/-- The fuelled logarithm does not depend on the fuel once it dominates the
argument. -/
theorem log2Fuel_eq (f : Nat) : ∀ f' n, n ≤ f → n ≤ f' → log2Fuel f n = log2Fuel f' n := by
  induction f with
  | zero =>
    intro f' n hf _
    have : n = 0 := by omega
    subst this
    rw [log2Fuel_small f' 0 (by omega)]
    rfl
  | succ f ih =>
    intro f' n hf hf'
    by_cases h2 : 2 ≤ n
    · rcases f' with _ | f'
      · omega
      · simp only [log2Fuel, if_pos h2]
        have hhalf : n / 2 ≤ f := by omega
        have hhalf2 : n / 2 ≤ f' := by omega
        rw [ih f' (n / 2) hhalf hhalf2]
    · rw [log2Fuel_small (f + 1) n (by omega), log2Fuel_small f' n (by omega)]

/-- Unfolding of `log2n` on an argument at least 2. -/
theorem log2n_step (n : Nat) (h : 2 ≤ n) : log2n n = log2n (n / 2) + 1 := by
  rcases n with _ | m
  · omega
  · simp only [log2n, log2Fuel, if_pos h]
    have h1 : (m + 1) / 2 ≤ m := by omega
    rw [log2Fuel_eq m ((m + 1) / 2) ((m + 1) / 2) h1 (by omega)]

/-- `2 ^ log2n n ≤ n` for positive `n`. -/
theorem pow_log2n_le (n : Nat) (h : 1 ≤ n) : 2 ^ log2n n ≤ n := by
  by_cases h2 : 2 ≤ n
  · have hhalf : 1 ≤ n / 2 := by omega
    have ih := pow_log2n_le (n / 2) hhalf
    rw [log2n_step n h2, pow_succ]
    have : 2 ^ log2n (n / 2) * 2 ≤ (n / 2) * 2 := by omega
    omega
  · have : n = 1 := by omega
    subst this
    rw [show log2n 1 = 0 from log2Fuel_small 1 1 (by omega)]
    omega
termination_by n
decreasing_by omega

/-- `n < 2 ^ (log2n n + 1)` for positive `n`. -/
theorem lt_pow_log2n (n : Nat) (h : 1 ≤ n) : n < 2 ^ (log2n n + 1) := by
  by_cases h2 : 2 ≤ n
  · have hhalf : 1 ≤ n / 2 := by omega
    have ih := lt_pow_log2n (n / 2) hhalf
    rw [log2n_step n h2]
    have hexp : 2 ^ (log2n (n / 2) + 1 + 1) = 2 ^ (log2n (n / 2) + 1) * 2 := by
      rw [pow_succ]
    omega
  · have : n = 1 := by omega
    subst this
    rw [show log2n 1 = 0 from log2Fuel_small 1 1 (by omega)]
    omega
termination_by n
decreasing_by omega

/-- Maximality of `log2n`: `2 ^ k ≤ n` forces `k ≤ log2n n`. -/
theorem le_log2n (k n : Nat) (h : 2 ^ k ≤ n) : k ≤ log2n n := by
  by_contra hlt
  have h1 : 1 ≤ n := le_trans (Nat.one_le_two_pow) h
  have h2 := lt_pow_log2n n h1
  have h3 : 2 ^ (log2n n + 1) ≤ 2 ^ k :=
    Nat.pow_le_pow_right (by omega) (by omega)
  omega

/-- The fuelled summarization does not depend on the fuel once it dominates
the interval width. -/
theorem summarizeFuel_eq (f : Nat) :
    ∀ f' first last, last + 1 - first ≤ f → last + 1 - first ≤ f' →
      summarizeFuel f first last = summarizeFuel f' first last := by
  induction f with
  | zero =>
    intro f' first last hf _
    have hfl : ¬ first ≤ last := by omega
    rcases f' with _ | f'
    · rfl
    · simp only [summarizeFuel, if_neg hfl]
  | succ f ih =>
    intro f' first last hf hf'
    by_cases hfl : first ≤ last
    · rcases f' with _ | f'
      · omega
      · simp only [summarizeFuel, if_pos hfl]
        have hpos : 0 < 2 ^ sumNbits first last := pow_pos (by norm_num) _
        rw [ih f' (first + 2 ^ sumNbits first last) last (by omega) (by omega)]
    · rcases f' with _ | f'
      · simp only [summarizeFuel, if_neg hfl]
      · simp only [summarizeFuel, if_neg hfl]

/-- One-step unfolding of `summarize` on a non-empty interval. -/
theorem summarize_step (first last : Nat) (h : first ≤ last) :
    summarize first last =
      (first, sumNbits first last) ::
        summarize (first + 2 ^ sumNbits first last) last := by
  have hw : last + 1 - first = (last - first) + 1 := by omega
  rw [summarize, hw]
  simp only [summarizeFuel, if_pos h]
  rw [summarize]
  have hpos : 0 < 2 ^ sumNbits first last := pow_pos (by norm_num) _
  rw [summarizeFuel_eq (last - first) (last + 1 - (first + 2 ^ sumNbits first last))
    (first + 2 ^ sumNbits first last) last (by omega) (by omega)]

/-- `summarize` of an empty interval. -/
theorem summarize_empty (first last : Nat) (h : last < first) :
    summarize first last = [] := by
  have hw : last + 1 - first = 0 := by omega
  rw [summarize, hw]
  rfl

/-- The chosen block size fits in the interval. -/
theorem pow_sumNbits_le (first last : Nat) (h : first ≤ last) :
    2 ^ sumNbits first last ≤ last - first + 1 := by
  have h1 : sumNbits first last ≤ log2n (last - first + 1) := min_le_right _ _
  have h2 : 2 ^ sumNbits first last ≤ 2 ^ log2n (last - first + 1) :=
    Nat.pow_le_pow_right (by omega) h1
  have h3 := pow_log2n_le (last - first + 1) (by omega)
  omega

/-- The chosen block start is aligned to the block size. -/
theorem sumNbits_align (first last : Nat) : first % 2 ^ sumNbits first last = 0 := by
  have h1 : sumNbits first last ≤ ctz32 first := min_le_left _ _
  have h2 : 2 ^ sumNbits first last ∣ first :=
    dvd_trans (pow_dvd_pow 2 h1) (pow_ctz32_dvd first)
  exact Nat.mod_eq_zero_of_dvd h2

/-- The cover of the empty block list. -/
theorem cover_nil : cover [] = ∅ := by
  simp [cover]

/-- The cover of a cons. -/
theorem cover_cons (b : Nat × Nat) (l : List (Nat × Nat)) :
    cover (b :: l) = blockSet b ∪ cover l := by
  ext x
  simp only [cover, List.mem_cons, Set.mem_iUnion, Set.mem_union, exists_prop]
  constructor
  · rintro ⟨i, hi | hi, hx⟩
    · subst hi; exact Or.inl hx
    · exact Or.inr ⟨i, hi, hx⟩
  · rintro (hx | ⟨i, hi, hx⟩)
    · exact ⟨b, Or.inl rfl, hx⟩
    · exact ⟨i, Or.inr hi, hx⟩

/-- Losslessness of the greedy summarization: the produced blocks cover
exactly the closed interval. -/
theorem summarize_cover (first last : Nat) (h : first ≤ last) :
    cover (summarize first last) = Set.Icc first last := by
  have hle := pow_sumNbits_le first last h
  have hpos : 0 < 2 ^ sumNbits first last := pow_pos (by norm_num) _
  rw [summarize_step first last h, cover_cons]
  by_cases h2 : first + 2 ^ sumNbits first last ≤ last
  · rw [summarize_cover (first + 2 ^ sumNbits first last) last h2]
    ext x
    simp only [blockSet, Set.mem_Ico, Set.mem_Icc, Set.mem_union]
    omega
  · have heq : first + 2 ^ sumNbits first last = last + 1 := by omega
    rw [heq, summarize_empty (last + 1) last (by omega), cover_nil]
    ext x
    simp only [blockSet, Set.mem_Ico, Set.mem_Icc, Set.mem_union,
      Set.mem_empty_iff_false, or_false]
    omega
termination_by last + 1 - first
decreasing_by
  have hpos : 0 < 2 ^ sumNbits first last := pow_pos (by norm_num) _
  omega

/-- Any well-formed CIDR block inside `[first, last]` that contains `first`
is contained in the greedy head block. -/
theorem block_max (first last : Nat) (s k : Nat)
    (hcidr : IsCidr (s, k)) (hsub : blockSet (s, k) ⊆ Set.Icc first last)
    (hlo : first ∈ blockSet (s, k)) :
    blockSet (s, k) ⊆ blockSet (first, sumNbits first last) := by
  obtain ⟨hk32, halign, -⟩ := hcidr
  have hpos : 0 < 2 ^ k := pow_pos (by norm_num) _
  simp only [blockSet, Set.mem_Ico] at hlo
  have hsmem : s ∈ Set.Icc first last := by
    apply hsub
    simp only [blockSet, Set.mem_Ico]
    omega
  simp only [Set.mem_Icc] at hsmem
  have hs : s = first := by omega
  subst hs
  have hkc : k ≤ ctz32 s := le_ctz32 k s hk32 (Nat.dvd_of_mod_eq_zero halign)
  have hupmem : s + 2 ^ k - 1 ∈ Set.Icc s last := by
    apply hsub
    simp only [blockSet, Set.mem_Ico]
    omega
  simp only [Set.mem_Icc] at hupmem
  have hklog : k ≤ log2n (last - s + 1) := le_log2n k _ (by omega)
  have hkg : k ≤ sumNbits s last := le_min hkc hklog
  have hppow : 2 ^ k ≤ 2 ^ sumNbits s last := Nat.pow_le_pow_right (by omega) hkg
  intro y hy
  simp only [blockSet, Set.mem_Ico] at hy ⊢
  omega

/-- Laminarity of aligned power-of-two blocks: two intersecting blocks are
nested (the smaller inside the larger). -/
theorem cidr_laminar (s1 k1 s2 k2 x : Nat)
    (a1 : s1 % 2 ^ k1 = 0) (a2 : s2 % 2 ^ k2 = 0) (hk : k1 ≤ k2)
    (hx1 : x ∈ blockSet (s1, k1)) (hx2 : x ∈ blockSet (s2, k2)) :
    blockSet (s1, k1) ⊆ blockSet (s2, k2) := by
  simp only [blockSet, Set.mem_Ico] at hx1 hx2
  have hp1 : 0 < 2 ^ k1 := pow_pos (by norm_num) _
  have hp2 : 0 < 2 ^ k2 := pow_pos (by norm_num) _
  have hs1 : s1 = x - x % 2 ^ k1 := by
    obtain ⟨m, hm⟩ := Nat.dvd_of_mod_eq_zero a1
    have hdiv : x / 2 ^ k1 = m := by
      have hxr : x = 2 ^ k1 * m + (x - s1) := by omega
      rw [hxr, Nat.mul_add_div hp1]
      have hz : (x - s1) / 2 ^ k1 = 0 := Nat.div_eq_of_lt (by omega)
      omega
    have hdm := Nat.div_add_mod x (2 ^ k1)
    rw [hdiv, ← hm] at hdm
    omega
  have hs2 : s2 = x - x % 2 ^ k2 := by
    obtain ⟨m, hm⟩ := Nat.dvd_of_mod_eq_zero a2
    have hdiv : x / 2 ^ k2 = m := by
      have hxr : x = 2 ^ k2 * m + (x - s2) := by omega
      rw [hxr, Nat.mul_add_div hp2]
      have hz : (x - s2) / 2 ^ k2 = 0 := Nat.div_eq_of_lt (by omega)
      omega
    have hdm := Nat.div_add_mod x (2 ^ k2)
    rw [hdiv, ← hm] at hdm
    omega
  have hr12 : x % 2 ^ k1 = (x % 2 ^ k2) % 2 ^ k1 :=
    (Nat.mod_mod_of_dvd x (pow_dvd_pow 2 hk)).symm
  have hrle : x % 2 ^ k1 ≤ x % 2 ^ k2 := by
    rw [hr12]
    exact Nat.mod_le _ _
  have hB := Nat.div_add_mod (x % 2 ^ k2) (2 ^ k1)
  rw [← hr12] at hB
  have hr2lt : x % 2 ^ k2 < 2 ^ k2 := Nat.mod_lt _ hp2
  have hC : 2 ^ k1 * 2 ^ (k2 - k1) = 2 ^ k2 := by
    rw [← pow_add]
    congr 1
    omega
  have hBlt : x % 2 ^ k2 / 2 ^ k1 < 2 ^ (k2 - k1) := by
    by_contra hge
    push_neg at hge
    have hmul : 2 ^ k1 * 2 ^ (k2 - k1) ≤ 2 ^ k1 * (x % 2 ^ k2 / 2 ^ k1) :=
      Nat.mul_le_mul_left _ hge
    omega
  have hmul2 : 2 ^ k1 * (x % 2 ^ k2 / 2 ^ k1 + 1) ≤ 2 ^ k1 * 2 ^ (k2 - k1) :=
    Nat.mul_le_mul_left _ (by omega)
  have hexp : 2 ^ k1 * (x % 2 ^ k2 / 2 ^ k1 + 1)
      = 2 ^ k1 * (x % 2 ^ k2 / 2 ^ k1) + 2 ^ k1 := by ring
  have hr2x : x % 2 ^ k2 ≤ x := Nat.mod_le _ _
  intro y hy
  simp only [blockSet, Set.mem_Ico] at hy ⊢
  omega

/-- Minimality of the greedy summarization: no set of well-formed CIDR
blocks whose union is exactly the closed interval is smaller than the
greedy cover. -/
theorem summarize_minimal (first last : Nat) (h32 : last < 2 ^ 32) :
    ∀ S : Finset (Nat × Nat), (∀ b ∈ S, IsCidr b) →
      (⋃ b ∈ S, blockSet b) = Set.Icc first last →
      (summarize first last).length ≤ S.card := by
  intro S hS hcover
  by_cases hfl : first ≤ last
  case neg =>
    rw [summarize_empty first last (by omega)]
    simp
  case pos =>
    have hg := pow_sumNbits_le first last hfl
    have hpos : 0 < 2 ^ sumNbits first last := pow_pos (by norm_num) _
    have halign := sumNbits_align first last
    have hmem : ∀ x, x ∈ Set.Icc first last ↔ ∃ b ∈ S, x ∈ blockSet b := by
      intro x
      rw [← hcover]
      simp [Set.mem_iUnion]
    have hsub : ∀ b ∈ S, blockSet b ⊆ Set.Icc first last := by
      intro b hb y hy
      exact (hmem y).mpr ⟨b, hb, hy⟩
    have hdich : ∀ b ∈ S,
        blockSet b ⊆ blockSet (first, sumNbits first last)
          ∨ first + 2 ^ sumNbits first last ≤ b.1 := by
      intro b hb
      obtain ⟨s, k⟩ := b
      by_cases hfar : first + 2 ^ sumNbits first last ≤ s
      · exact Or.inr hfar
      · left
        have hkpos : 0 < 2 ^ k := pow_pos (by norm_num) _
        have hsmem : s ∈ Set.Icc first last := by
          apply hsub (s, k) hb
          simp only [blockSet, Set.mem_Ico]
          omega
        simp only [Set.mem_Icc] at hsmem
        have hsG : s ∈ blockSet (first, sumNbits first last) := by
          simp only [blockSet, Set.mem_Ico]
          omega
        have hsb : s ∈ blockSet (s, k) := by
          simp only [blockSet, Set.mem_Ico]
          omega
        obtain ⟨hk32, hal, -⟩ := hS (s, k) hb
        by_cases hkk : k ≤ sumNbits first last
        · exact cidr_laminar s k first (sumNbits first last) s hal halign hkk hsb hsG
        · have hGb : blockSet (first, sumNbits first last) ⊆ blockSet (s, k) :=
            cidr_laminar first (sumNbits first last) s k s halign hal (by omega) hsG hsb
          have hfb : first ∈ blockSet (s, k) := by
            apply hGb
            simp only [blockSet, Set.mem_Ico]
            omega
          exact block_max first last s k (hS (s, k) hb) (hsub (s, k) hb) hfb
    obtain ⟨b0, hb0, hfb0⟩ : ∃ b ∈ S, first ∈ blockSet b := by
      apply (hmem first).mp
      simp only [Set.mem_Icc]
      omega
    have hb0near : b0.1 ≤ first := by
      simp only [blockSet, Set.mem_Ico] at hfb0
      omega
    by_cases hstep : first + 2 ^ sumNbits first last ≤ last
    · have houtsub : ∀ b ∈ S.filter (fun b => first + 2 ^ sumNbits first last ≤ b.1),
          IsCidr b := fun b hb => hS b (Finset.mem_filter.mp hb).1
      have houtcover :
          (⋃ b ∈ S.filter (fun b => first + 2 ^ sumNbits first last ≤ b.1), blockSet b)
            = Set.Icc (first + 2 ^ sumNbits first last) last := by
        ext x
        simp only [Set.mem_iUnion, exists_prop, Set.mem_Icc]
        constructor
        · rintro ⟨b, hb, hx⟩
          obtain ⟨hbS, hbfar⟩ := Finset.mem_filter.mp hb
          have hxI := hsub b hbS hx
          simp only [Set.mem_Icc] at hxI
          simp only [blockSet, Set.mem_Ico] at hx
          exact ⟨by omega, hxI.2⟩
        · rintro ⟨hx1, hx2⟩
          obtain ⟨b, hb, hx⟩ := (hmem x).mp (by simp only [Set.mem_Icc]; omega)
          rcases hdich b hb with hbG | hbfar
          · exfalso
            have hxG := hbG hx
            simp only [blockSet, Set.mem_Ico] at hxG
            omega
          · exact ⟨b, Finset.mem_filter.mpr ⟨hb, hbfar⟩, hx⟩
      have hih := summarize_minimal (first + 2 ^ sumNbits first last) last h32
        (S.filter (fun b => first + 2 ^ sumNbits first last ≤ b.1)) houtsub houtcover
      have hsubset : S.filter (fun b => first + 2 ^ sumNbits first last ≤ b.1)
          ⊆ S.erase b0 := by
        intro b hb
        obtain ⟨hbS, hbfar⟩ := Finset.mem_filter.mp hb
        refine Finset.mem_erase.mpr ⟨?_, hbS⟩
        intro heq
        subst heq
        omega
      have hcard : (S.filter (fun b => first + 2 ^ sumNbits first last ≤ b.1)).card
          ≤ S.card - 1 := by
        calc (S.filter (fun b => first + 2 ^ sumNbits first last ≤ b.1)).card
            ≤ (S.erase b0).card := Finset.card_le_card hsubset
          _ = S.card - 1 := Finset.card_erase_of_mem hb0
      have hSpos : 1 ≤ S.card := Finset.card_pos.mpr ⟨b0, hb0⟩
      rw [summarize_step first last hfl]
      simp only [List.length_cons]
      omega
    · rw [summarize_step first last hfl, summarize_empty _ last (by omega)]
      simp only [List.length_cons, List.length_nil]
      have hSpos : 1 ≤ S.card := Finset.card_pos.mpr ⟨b0, hb0⟩
      omega
termination_by last + 1 - first
decreasing_by
  have hpos : 0 < 2 ^ sumNbits first last := pow_pos (by norm_num) _
  omega

/-- Claim C1: for every IPv4 range child `range lo hi` with `lo ≤ hi`, the
CIDR blocks produced by the summarization are a lossless cover (their union
is exactly the closed interval `[lo, hi]`) and a minimal one (no set of
well-formed CIDR blocks with that exact union has fewer members); in
particular the range `10.0.0.1..10.0.0.4` yields exactly
`10.0.0.1/32, 10.0.0.2/31, 10.0.0.4/32`. -/
theorem c1_range_cover (lo hi : Nat) (h1 : lo ≤ hi) (h2 : hi < 2 ^ 32) :
    cover (summarize lo hi) = Set.Icc lo hi ∧
    (∀ S : Finset (Nat × Nat), (∀ b ∈ S, IsCidr b) →
        (⋃ b ∈ S, blockSet b) = Set.Icc lo hi →
        (summarize lo hi).length ≤ S.card) ∧
    rangeCidrStrings 167772161 167772164
      = ["10.0.0.1/32", "10.0.0.2/31", "10.0.0.4/32"] :=
  ⟨summarize_cover lo hi h1, summarize_minimal lo hi h2, by decide⟩

/-- Witness for `c1_range_cover` at the spec's own example range. -/
theorem c1_witness :
    (167772161 ≤ 167772164 ∧ 167772164 < 2 ^ 32) ∧
    (cover (summarize 167772161 167772164) = Set.Icc 167772161 167772164 ∧
     (∀ S : Finset (Nat × Nat), (∀ b ∈ S, IsCidr b) →
         (⋃ b ∈ S, blockSet b) = Set.Icc 167772161 167772164 →
         (summarize 167772161 167772164).length ≤ S.card) ∧
     rangeCidrStrings 167772161 167772164
       = ["10.0.0.1/32", "10.0.0.2/31", "10.0.0.4/32"]) :=
  ⟨⟨by decide, by norm_num⟩,
   c1_range_cover 167772161 167772164 (by decide) (by norm_num)⟩

/-- `exitsIdxFrom` at offset `n` is the offset-0 index list shifted. -/
theorem exitsIdxFrom_shift (l : List String) :
    ∀ n, exitsIdxFrom n l = (exitsIdxFrom 0 l).map (· + n) := by
  induction l with
  | nil => intro n; simp [exitsIdxFrom]
  | cons c cs ih =>
    intro n
    simp only [exitsIdxFrom]
    by_cases hc : containsSub c "exit" = true
    · rw [if_pos hc, if_pos hc, ih (n + 1), ih 1]
      simp only [List.map_cons, List.map_map]
      congr 1
      · omega
      · apply List.map_congr_left
        intro a _
        simp only [Function.comp_apply]
        omega
    · rw [if_neg hc, if_neg hc, ih (n + 1), ih 1]
      simp only [List.map_map]
      apply List.map_congr_left
      intro a _
      simp only [Function.comp_apply]
      omega

/-- One-step unfolding of `exitsIdx` on a cons. -/
theorem exitsIdx_cons (c : String) (cs : List String) :
    exitsIdx (c :: cs) =
      if containsSub c "exit" then 1 :: (exitsIdx cs).map (· + 1)
      else (exitsIdx cs).map (· + 1) := by
  simp only [exitsIdx, exitsIdxFrom]
  split <;> rw [exitsIdxFrom_shift cs 1]

/-- The `[size]`-tail of `endsOf` commutes with the `+ 1` index shift, for
a non-empty index list. -/
theorem opt_shift_cons (I : List Nat) :
    ∀ i0 len,
      (if ((i0 :: I).map (· + 1)).getLast?.getD 0 = len + 1 then ([] : List Nat)
       else [len + 1])
      = (if (i0 :: I).getLast?.getD 0 = len then ([] : List Nat) else [len]).map (· + 1) := by
  induction I with
  | nil =>
    intro i0 len
    by_cases h : i0 = len
    · simp [h]
    · rw [if_neg (by simpa using fun hx => h (by omega)), if_neg (by simpa using h)]
      rfl
  | cons i1 I ih =>
    intro i0 len
    simp only [List.map_cons, List.getLast?_cons_cons]
    exact ih i1 len

/-- `endsOf` on a cons whose head contains `exit`. -/
theorem endsOf_cons_exit (c : String) (cs : List String)
    (hc : containsSub c "exit" = true) :
    endsOf (c :: cs) = 1 :: (endsOf cs).map (· + 1) := by
  rcases hI : exitsIdx cs with _ | ⟨i0, I⟩
  · by_cases hl : cs.length = 0
    · simp [endsOf, exitsIdx_cons, hc, hI, hl]
    · have e1 : ¬ (1 = cs.length + 1) := by omega
      have e2 : ¬ ((0 : Nat) = cs.length) := by omega
      simp [endsOf, exitsIdx_cons, hc, hI, e1, e2]
  · have hopt := opt_shift_cons I i0 cs.length
    simp only [List.map_cons] at hopt
    simp only [endsOf, exitsIdx_cons, if_pos hc, hI, List.length_cons, List.map_cons,
      List.map_append, List.cons_append, List.getLastD_eq_getLast?, List.getLast?_cons_cons]
    rw [hopt]

/-- `endsOf` on a cons whose head does not contain `exit`, provided the
tail has at least one `exit`. -/
theorem endsOf_cons_noexit (c : String) (cs : List String)
    (hc : containsSub c "exit" = false) (hI : exitsIdx cs ≠ []) :
    endsOf (c :: cs) = (endsOf cs).map (· + 1) := by
  obtain ⟨i0, I, hIdx⟩ : ∃ i0 I, exitsIdx cs = i0 :: I := by
    rcases h : exitsIdx cs with _ | ⟨a, b⟩
    · exact absurd h hI
    · exact ⟨a, b, rfl⟩
  have hcb : ¬ containsSub c "exit" = true := by simp [hc]
  have hopt := opt_shift_cons I i0 cs.length
  simp only [List.map_cons] at hopt
  simp only [endsOf, exitsIdx_cons, if_neg hcb, hIdx, List.length_cons, List.map_cons,
    List.map_append, List.cons_append, List.getLastD_eq_getLast?, List.getLast?_cons_cons]
  rw [hopt]

/-- Slicing a cons at shifted indices slices the tail. -/
theorem sliceF_shift (c : String) (cs : List String) (p : Nat × Nat) :
    sliceF (c :: cs) (p.1 + 1, p.2 + 1) = sliceF cs p := by
  simp [sliceF, Nat.succ_sub_succ]

/-- Mapping the slice of a cons over shifted index pairs. -/
theorem map_sliceF_shift (c : String) (cs : List String) (l : List (Nat × Nat)) :
    (l.map (Prod.map (· + 1) (· + 1))).map (sliceF (c :: cs)) = l.map (sliceF cs) := by
  rw [List.map_map]
  apply List.map_congr_left
  intro p _
  have := sliceF_shift c cs p
  simpa [Function.comp, Prod.map] using this

/-- `resOf` on an exit-free child list. -/
theorem resOf_noexit (cs : List String) (hI : exitsIdx cs = []) :
    resOf cs = if cs = [] then [] else [cs] := by
  by_cases hcs : cs = []
  · subst hcs
    simp [resOf, endsOf, exitsIdx, exitsIdxFrom, sliceF]
  · have hlen : cs.length ≠ 0 := by
      simpa [List.length_eq_zero] using hcs
    rw [if_neg hcs, resOf, endsOf, hI]
    have hz : (([] : List Nat)).getLastD 0 = 0 := rfl
    rw [hz, List.nil_append, if_neg (by omega : ¬ (0 : Nat) = cs.length)]
    simp [sliceF, List.take_length]

/-- `resOf` on a cons whose head contains `exit`. -/
theorem resOf_cons_exit (c : String) (cs : List String)
    (hc : containsSub c "exit" = true) :
    resOf (c :: cs) = [c] :: resOf cs := by
  have hmap : (1 : Nat) :: (exitsIdx cs).map (· + 1) = ((0 :: exitsIdx cs).map (· + 1)) := by
    simp
  simp only [resOf]
  rw [exitsIdx_cons, if_pos hc, endsOf_cons_exit c cs hc,
    List.zip_cons_cons, List.map_cons, hmap, List.zip_map, map_sliceF_shift]
  rfl

/-- `partsAux` over an exit-free child list. -/
theorem partsAux_noexit (cs : List String) :
    ∀ acc, exitsIdx cs = [] →
      partsAux acc cs = if acc = [] ∧ cs = [] then [] else [acc.reverse ++ cs] := by
  induction cs with
  | nil =>
    intro acc _
    rcases acc with _ | ⟨a, t⟩ <;> simp [partsAux]
  | cons c cs ih =>
    intro acc h
    rw [exitsIdx_cons] at h
    by_cases hc : containsSub c "exit" = true
    · rw [if_pos hc] at h
      simp at h
    · rw [if_neg hc] at h
      have hcs : exitsIdx cs = [] := by simpa using h
      have h1 : partsAux acc (c :: cs) = partsAux (c :: acc) cs := by
        simp [partsAux, hc]
      rw [h1, ih (c :: acc) hcs]
      simp

/-- `partsAux` with a pending accumulator, when at least one `exit` is
present: the accumulator is prepended to the first partition. -/
theorem partsAux_acc (cs : List String) :
    ∀ acc, exitsIdx cs ≠ [] →
      partsAux acc cs =
        (acc.reverse ++ (partitionsAtExits cs).headD []) :: (partitionsAtExits cs).tail := by
  induction cs with
  | nil => intro acc h; exact absurd rfl h
  | cons c cs ih =>
    intro acc h
    by_cases hc : containsSub c "exit" = true
    · have h1 : partsAux acc (c :: cs) = (acc.reverse ++ [c]) :: partsAux [] cs := by
        simp [partsAux, hc]
      have h2 : partitionsAtExits (c :: cs) = [c] :: partsAux [] cs := by
        simp [partitionsAtExits, partsAux, hc]
      rw [h1, h2]
      rfl
    · have hI : exitsIdx cs ≠ [] := by
        rw [exitsIdx_cons, if_neg (by simp [hc])] at h
        simpa using h
      have h1 : partsAux acc (c :: cs) = partsAux (c :: acc) cs := by
        simp [partsAux, hc]
      have h2 : partitionsAtExits (c :: cs) = partsAux [c] cs := by
        simp [partitionsAtExits, partsAux, hc]
      rw [h1, h2, ih (c :: acc) hI, ih [c] hI]
      simp

/-- The partitions of a child list concatenate back to the child list. -/
theorem partsAux_flatten (cs : List String) :
    ∀ acc, (partsAux acc cs).flatten = acc.reverse ++ cs := by
  induction cs with
  | nil =>
    intro acc
    rcases acc with _ | ⟨a, t⟩ <;> simp [partsAux]
  | cons c cs ih =>
    intro acc
    by_cases hc : containsSub c "exit" = true
    · have h1 : partsAux acc (c :: cs) = (acc.reverse ++ [c]) :: partsAux [] cs := by
        simp [partsAux, hc]
      rw [h1, List.flatten_cons, ih []]
      simp
    · have h1 : partsAux acc (c :: cs) = partsAux (c :: acc) cs := by
        simp [partsAux, hc]
      rw [h1, ih (c :: acc)]
      simp

/-- The slice computation of `duplicate_splitter` coincides with the
declarative partition of the child list at `exit` boundaries. -/
theorem resOf_eq_partitions (cs : List String) :
    exitsIdx cs ≠ [] → resOf cs = partitionsAtExits cs := by
  induction cs with
  | nil => intro h; exact absurd rfl h
  | cons c cs ih =>
    intro h
    by_cases hc : containsSub c "exit" = true
    · rw [resOf_cons_exit c cs hc]
      have hparts : partitionsAtExits (c :: cs) = [c] :: partsAux [] cs := by
        simp [partitionsAtExits, partsAux, hc]
      rw [hparts]
      by_cases hI : exitsIdx cs = []
      · rw [resOf_noexit cs hI, partsAux_noexit cs [] hI]
        by_cases hcs : cs = [] <;> simp [hcs]
      · rw [ih hI]
        rfl
    · have hcf : containsSub c "exit" = false := by
        simpa using hc
      have hcb : ¬ containsSub c "exit" = true := by simp [hcf]
      have hI : exitsIdx cs ≠ [] := by
        rw [exitsIdx_cons, if_neg hcb] at h
        simpa using h
      obtain ⟨e0, E', hE⟩ : ∃ e0 E', endsOf cs = e0 :: E' := by
        have hne : endsOf cs ≠ [] := by
          simp only [endsOf]
          intro hx
          rcases List.append_eq_nil.mp hx with ⟨h1, -⟩
          exact hI h1
        rcases hEnds : endsOf cs with _ | ⟨a, b⟩
        · exact absurd hEnds hne
        · exact ⟨a, b, rfl⟩
      have hL : resOf (c :: cs) =
          (c :: sliceF cs (0, e0)) :: (((exitsIdx cs).zip E').map (sliceF cs)) := by
        simp only [resOf]
        rw [exitsIdx_cons, if_neg hcb, endsOf_cons_noexit c cs hcf hI, hE,
          List.map_cons, List.zip_cons_cons, List.map_cons, List.zip_map, map_sliceF_shift]
        rfl
      have hres : resOf cs = sliceF cs (0, e0) :: (((exitsIdx cs).zip E').map (sliceF cs)) := by
        simp only [resOf]
        rw [hE, List.zip_cons_cons, List.map_cons]
      have hR : partitionsAtExits (c :: cs) =
          (c :: (partitionsAtExits cs).headD []) :: (partitionsAtExits cs).tail := by
        have h1 : partitionsAtExits (c :: cs) = partsAux [c] cs := by
          simp [partitionsAtExits, partsAux, hcf]
        rw [h1, partsAux_acc cs [c] hI]
        rfl
      rw [hL, hR, ← ih hI, hres]
      rfl

/-- The splitter loop body agrees with its declarative description via
`partitionsAtExits`. -/
theorem splitOne_eq_splitSpec (object_type : String) (e : Stanza) :
    splitOne object_type e = splitSpec object_type e := by
  by_cases hI : exitsIdx e.children = []
  · have hP : partitionsAtExits e.children = if e.children = [] then [] else [e.children] := by
      have := partsAux_noexit e.children [] hI
      simpa [partitionsAtExits] using this
    by_cases hcs : e.children = []
    · simp [splitOne, splitSpec, hI, hP, hcs, exitsIdx, exitsIdxFrom, partitionsAtExits,
        partsAux]
    · have hP1 : partitionsAtExits e.children = [e.children] := by rw [hP, if_neg hcs]
      simp [splitOne, splitSpec, hI, hP1]
  · have hres := resOf_eq_partitions e.children hI
    simp only [splitOne, splitSpec]
    rw [if_neg (by simpa [List.isEmpty_iff] using hI), hres]
    by_cases hlen : (partitionsAtExits e.children).length ≤ 1
    · rw [if_neg (by omega), if_pos hlen]
    · rw [if_pos (by omega), if_neg hlen]

/-- Counterexample to the claim C7 statement: a stanza whose children hold
two `exit` tokens has three partitions, but the splitter produces only
*one* new synthetic stanza (from the second partition); the third partition
— including the child line `host 10.0.0.3` — is dropped entirely. -/
theorem c7_counterexample :
    duplicate_splitter
        [⟨"address-object ipv4 A",
          ["host 10.0.0.1", "exit", "name B", "host 10.0.0.2", "exit",
           "name C", "host 10.0.0.3"]⟩] "ipv4"
      = ([⟨"address-object ipv4 A", ["host 10.0.0.1", "exit"]⟩],
         [⟨"address-object ipv4 B", ["name B", "host 10.0.0.2", "exit"]⟩]) ∧
    (partitionsAtExits
        ["host 10.0.0.1", "exit", "name B", "host 10.0.0.2", "exit",
         "name C", "host 10.0.0.3"]).length = 3 ∧
    ("host 10.0.0.3"
      ∉ (["host 10.0.0.1", "exit"] ++ ["name B", "host 10.0.0.2", "exit"] : List String)) := by
  refine ⟨by decide, by decide, by decide⟩

/-- Claim C7 (amended): the multi-entity splitter partitions the children
at `exit` boundaries (the partitions concatenate back to the child list,
so the partitioning itself drops nothing), but builds at most *one* new
synthetic stanza: with at most one partition the stanza is returned
unchanged; otherwise the original keeps the first partition, the single
clone carries the second partition with its header rebuilt from that
partition's `name <ident>` first line, and every partition after the
second is dropped together with its child lines. -/
theorem c7_duplicate_splitter (object_type : String) (l : List Stanza) :
    duplicate_splitter l object_type
      = (l.map (fun e => (splitSpec object_type e).1),
         l.filterMap (fun e => (splitSpec object_type e).2)) ∧
    (∀ e : Stanza, splitOne object_type e = splitSpec object_type e) ∧
    (∀ children : List String, (partitionsAtExits children).flatten = children) := by
  refine ⟨?_, splitOne_eq_splitSpec object_type, ?_⟩
  · simp only [duplicate_splitter, splitOne_eq_splitSpec]
  · intro children
    simpa [partitionsAtExits] using partsAux_flatten children []

/-- Invariant of the `combine_like_services` loop: with arbitrary
accumulator contents, the final result is the pending `result` prefix, the
ranges of the remaining input in order, the combined TCP and UDP
primitives, and the last ICMP-family primitive. -/
theorem combineAux_eq (svcs : List (String × String)) :
    ∀ result tcp udp icmp,
      combineAux svcs result tcp udp icmp =
        result ++ rangesOf svcs ++ protoBlock "TCP" (collectPorts "TCP" tcp svcs)
               ++ protoBlock "UDP" (collectPorts "UDP" udp svcs)
               ++ (lastIcmp icmp svcs).toList := by
  induction svcs with
  | nil =>
    intro result tcp udp icmp
    simp [combineAux, rangesOf, collectPorts, lastIcmp, protoBlock]
  | cons s rest ih =>
    obtain ⟨p, port⟩ := s
    intro result tcp udp icmp
    by_cases hr : containsSub port "-" = true
    · simp only [combineAux, hr, if_true, ih, rangesOf, List.filter_cons, collectPorts,
        lastIcmp]
      simp [rangesOf, hr, List.append_assoc]
    · by_cases ht : p = "TCP"
      · subst ht
        by_cases hm : port ∈ tcp
        · simp only [combineAux, hr, if_false, ih, collectPorts, lastIcmp]
          simp [rangesOf, hr, hm, collectPorts, lastIcmp]
        · simp only [combineAux, hr, if_false, ih, collectPorts, lastIcmp]
          simp [rangesOf, hr, hm, collectPorts, lastIcmp]
      · by_cases hu : p = "UDP"
        · subst hu
          by_cases hm : port ∈ udp
          · simp only [combineAux, hr, if_false, ih]
            simp [rangesOf, hr, hm, collectPorts, lastIcmp]
          · simp only [combineAux, hr, if_false, ih]
            simp [rangesOf, hr, hm, collectPorts, lastIcmp]
        · by_cases hi : p = "ICMP" ∨ p = "ICMPV6"
          · simp only [combineAux, hr, if_false, ih]
            simp [rangesOf, hr, ht, hu, hi, collectPorts, lastIcmp]
          · simp only [combineAux, hr, if_false, ih]
            simp [rangesOf, hr, ht, hu, hi, collectPorts, lastIcmp]

/-- Claim C6 (amended): dereferencing a ServiceGroup combines primitives of
the same protocol — the range primitives stay distinct in input order, all
distinct TCP single ports become one comma-joined TCP primitive, likewise
for UDP — but ICMP and ICMPV6 share a *single* slot: only the last
ICMP-family primitive survives (as one `(proto, N/A)` entry), so a group
containing both an ICMP and an ICMPV6 primitive yields only the later of
the two. -/
theorem c6_combine_characterization (svcs : List (String × String)) :
    combine_like_services svcs =
      rangesOf svcs ++ protoBlock "TCP" (collectPorts "TCP" [] svcs)
        ++ protoBlock "UDP" (collectPorts "UDP" [] svcs)
        ++ (lastIcmp none svcs).toList ∧
    combine_like_services [("ICMPV6", "N/A"), ("ICMP", "N/A")] = [("ICMP", "N/A")] :=
  ⟨by simpa using combineAux_eq svcs [] [] [] none, by decide⟩

/-- Claim C5: each of the three slot parsers decides the literal-`any` case
with a *substring* test (`'any' in ...`), so any reference whose text
contains `any` resolves to the literal `any` — for the source and
destination slots the slot is set to `any` and no symbol table is
consulted; for the service slot the pair `('any','any')` is seeded first,
so whenever the parser succeeds the services list starts with it. -/
theorem c5_any_substring (t : Tables) (s : String) (h : containsSub s "any" = true) :
    parse_source t s = .ok (some (.single "any")) ∧
    parse_destination t s = .ok (some (.single "any")) ∧
    ∀ l, parse_service t s = .ok l → l.head? = some ("any", "any") := by
  refine ⟨by simp [parse_source, h], by simp [parse_destination, h], ?_⟩
  intro l hl
  simp only [parse_service, h, if_true] at hl
  split at hl
  · split at hl
    · simp only [PResult.ok.injEq] at hl
      subst hl
      rfl
    · simp at hl
  · split at hl
    · split at hl
      · simp only [PResult.ok.injEq] at hl
        subst hl
        rfl
      · split at hl
        · simp only [PResult.ok.injEq] at hl
          subst hl
          rfl
        · simp at hl
    · simp only [PResult.ok.injEq] at hl
      subst hl
      rfl

/-- Witness for `c5_any_substring`: the source-address reference
`name Germany-Net` contains `any` as a substring and resolves to the
literal `any`. -/
theorem c5_witness :
    containsSub "name Germany-Net" "any" = true ∧
    (parse_source emptyTables "name Germany-Net" = .ok (some (.single "any")) ∧
     parse_destination emptyTables "name Germany-Net" = .ok (some (.single "any")) ∧
     ∀ l, parse_service emptyTables "name Germany-Net" = .ok l →
       l.head? = some ("any", "any")) :=
  ⟨by decide, c5_any_substring emptyTables "name Germany-Net" (by decide)⟩

/-- Reading back through a `setA` write: the written key returns the new
value, every other key is unchanged. -/
theorem lookupS_setA {β : Type} (k k' : String) (v : β) (l : List (String × β)) :
    lookupS k' (setA k v l) = if k' = k then some v else lookupS k' l := by
  induction l with
  | nil => simp [setA, lookupS]
  | cons a t ih =>
    obtain ⟨ka, va⟩ := a
    by_cases hka : ka = k
    · subst hka
      simp only [setA, if_pos rfl, lookupS]
      split <;> rfl
    · simp only [setA, if_neg hka, lookupS, ih]
      by_cases hk' : k' = ka
      · subst hk'
        simp [if_neg hka]
      · simp [hk']

/-- Counterexample to the claim C3 statement: an any/any/any/any rule whose
zones are not keys of the Default-Zone Map (here: the map is empty, so no
zone is configured in `ZONES`) is still skipped, but *no* map cell is
written — the update is guarded by membership of both zones among the
map's outer keys, so the cell count is zero, not one. -/
theorem c3_counterexample :
    finalize_acl
        ⟨some "LAN", some "WAN", some "allow", none, none,
         some (.single "any"), some (.single "any"), some [("any", "any")]⟩ []
      = (.skip "Any Any Any Any Rule placed in mapping file. Skipping", []) ∧
    cellLookup [] "LAN" "WAN" = none := by
  refine ⟨by decide, by decide⟩

/-- Claim C3 (amended): for every parsed rule whose resolved src, dst and
first service are the literal `any`, no MX rule is produced (the result is
the skip message); and *when both zones are outer keys of the Default-Zone
Map* exactly the cell `(src_zone, dst_zone)` is overwritten — with `allow`
if the action is `allow` and `deny` otherwise — while every other cell is
unchanged; when either zone is not a key, the map is left untouched. -/
theorem c3_any_any_rule (acl : AclDict) (m : ZoneMap) (sz dz act : String)
    (tl : List (String × String))
    (hsz : acl.src_zone = some sz) (hdz : acl.dst_zone = some dz)
    (hact : acl.action = some act)
    (hsrc : acl.src = some (.single "any")) (hdst : acl.dst = some (.single "any"))
    (hsv : acl.services = some (("any", "any") :: tl)) :
    (finalize_acl acl m).1 = .skip "Any Any Any Any Rule placed in mapping file. Skipping" ∧
    (∀ inner, lookupS sz m = some inner → (lookupS dz m).isSome →
      ∀ s d, cellLookup (finalize_acl acl m).2 s d =
        if s = sz ∧ d = dz then some (if act = "allow" then "allow" else "deny")
        else cellLookup m s d) ∧
    (¬ ((lookupS sz m).isSome ∧ (lookupS dz m).isSome) → (finalize_acl acl m).2 = m) := by
  have hred : finalize_acl acl m =
      (.skip "Any Any Any Any Rule placed in mapping file. Skipping",
        match lookupS sz m, lookupS dz m with
        | some inner, some _ =>
          setA sz (setA dz (if act = "allow" then "allow" else "deny") inner) m
        | _, _ => m) := by
    simp [finalize_acl, hsz, hdz, hact, hsrc, hdst, hsv]
  refine ⟨by rw [hred], ?_, ?_⟩
  · intro inner hinner hdzs s d
    obtain ⟨inner2, hinner2⟩ := Option.isSome_iff_exists.mp hdzs
    rw [hred]
    simp only [hinner, hinner2, cellLookup, lookupS_setA]
    by_cases hssz : s = sz
    · subst hssz
      simp only [if_pos rfl, Option.some_bind, lookupS_setA, hinner, true_and]
      by_cases hddz : d = dz
      · subst hddz
        simp [lookupS_setA]
      · simp [lookupS_setA, hddz]
    · simp [hssz]
  · intro hn
    rw [hred]
    rcases h1 : lookupS sz m with _ | inner
    · simp [h1]
    · rcases h2 : lookupS dz m with _ | inner2
      · simp [h1, h2]
      · exact absurd ⟨by simp [h1], by simp [h2]⟩ hn

/-- Witness for `c3_any_any_rule` with both zones configured. -/
theorem c3_witness :
    ((⟨some "LAN", some "WAN", some "deny", none, none,
        some (.single "any"), some (.single "any"),
        some [("any", "any")]⟩ : AclDict).src_zone = some "LAN") ∧
    ((finalize_acl
        ⟨some "LAN", some "WAN", some "deny", none, none,
         some (.single "any"), some (.single "any"), some [("any", "any")]⟩
        [("LAN", []), ("WAN", [])]).1
      = .skip "Any Any Any Any Rule placed in mapping file. Skipping") :=
  ⟨rfl,
   (c3_any_any_rule
       ⟨some "LAN", some "WAN", some "deny", none, none,
        some (.single "any"), some (.single "any"), some [("any", "any")]⟩
       [("LAN", []), ("WAN", [])] "LAN" "WAN" "deny" []
       rfl rfl rfl rfl rfl rfl).1⟩

/-- Counterexample to the claim C9 statement: two ipv4 address-object
definitions sharing the sanitized name `DUP` are processed; the first
produces the remote object, the second is dropped — but the Failure
Journal stays *empty*: no record naming the duplicate entity is written
(the source only prints to the console in that branch). -/
theorem c9_counterexample :
    runIpv4Pass ⟨[], [], [], 0⟩
        [⟨"address-object ipv4 DUP", ["host 10.0.0.1"]⟩,
         ⟨"address-object ipv4 DUP", ["host 10.0.0.2"]⟩]
      = some ⟨[("DUP", "0")], [], [], 1⟩ := by decide

/-- Claim C9 (amended): no duplicate definition writes a record to the
Failure Journal, and the second definition is not uniformly dropped —
duplicate handling differs by category.  An ipv4 address-object whose
sanitized name is already bound (as an object, or as a range group under
`<name>__range__`) is dropped with only a console message, the pass state
completely unchanged, so exactly the first definition produces the remote
object.  A service-object is never duplicate-checked: every successfully
parsed definition is installed by a plain dict assignment, so a second
definition silently *overwrites* the first binding with no message.  And
an ipv4 address-group whose first definition was deferred into
`range_object_groups` bypasses the `object_groups` duplicate check: a
second range-bearing definition of the same name overwrites the deferred
structure.  In each of these cases the Failure Journal receives no
duplicate record (the concrete runs end with an empty journal). -/
theorem c9_duplicate_handling :
    (∀ (st : ObjPass) (e : Stanza),
      ((lookupS (sanitize_object_name (rep e.text "address-object ipv4 " ""))
          st.objects).isSome ∨
       (lookupS (sanitize_object_name (rep e.text "address-object ipv4 " "")
           ++ "__range__") st.range_objects).isSome) →
      processIpv4Object st e = some st) ∧
    (∀ (st : SvcPass) (e : Stanza) (n : String) (v : String × String),
      build_service e = .svc n v →
      processServiceObject st e
        = some { st with service_objects := setA n v st.service_objects }) ∧
    (∀ (st : GroupPass) (e : Stanza) (G : String) (acc : GroupAcc),
      build_group st e = .obj G acc → acc.rangeIds ≠ [] →
      processIpv4Group st e
        = { st with
            range_object_groups :=
              setA (G ++ "__range__") (acc.objectIds, acc.rangeIds) st.range_object_groups
            journal := st.journal ++ acc.adds }) ∧
    runServicePass ⟨[], []⟩
        [⟨"service-object SVC TCP 80 80", []⟩, ⟨"service-object SVC UDP 53 53", []⟩]
      = some ⟨[("SVC", ("UDP", "53"))], []⟩ ∧
    processIpv4Group
        (processIpv4Group ⟨[], [("R1__range__", "a"), ("R2__range__", "b")], [], [], [], 0⟩
          ⟨"address-group ipv4 G", ["address-object ipv4 R1"]⟩)
        ⟨"address-group ipv4 G", ["address-object ipv4 R2"]⟩
      = ⟨[], [("R1__range__", "a"), ("R2__range__", "b")], [],
         [("G__range__", ([], ["b"]))], [], 0⟩ := by
  refine ⟨?_, ?_, ?_, by decide, by decide⟩
  · intro st e h
    simp only [processIpv4Object, build_object]
    rw [if_neg]
    · simp
    · intro hcon
      rcases h with h | h
      · obtain ⟨a, ha⟩ := Option.isSome_iff_exists.mp h
        simp [ha] at hcon
      · obtain ⟨a, ha⟩ := Option.isSome_iff_exists.mp h
        simp [ha] at hcon
  · intro st e n v hb
    simp only [processServiceObject, hb]
  · intro st e G acc hb hr
    simp only [processIpv4Group, hb]
    rw [if_pos]
    exact List.length_pos.mpr hr

/-- Witness for `c9_duplicate_handling`, discharging the hypotheses of its
three universally quantified parts at concrete duplicates: a duplicate
ipv4 object is dropped with the state unchanged, a duplicate service
object overwrites its binding, and a duplicate range-deferred group
overwrites the deferred structure. -/
theorem c9_witness :
    processIpv4Object ⟨[("DUP", "7")], [], [], 8⟩
        ⟨"address-object ipv4 DUP", ["host 10.0.0.3"]⟩
      = some ⟨[("DUP", "7")], [], [], 8⟩ ∧
    processServiceObject ⟨[("SVC", ("TCP", "80"))], []⟩
        ⟨"service-object SVC UDP 53 53", []⟩
      = some ⟨[("SVC", ("UDP", "53"))], []⟩ ∧
    processIpv4Group ⟨[], [("R1__range__", "a"), ("R2__range__", "b")], [],
        [("G__range__", ([], ["a"]))], [], 0⟩
        ⟨"address-group ipv4 G", ["address-object ipv4 R2"]⟩
      = ⟨[], [("R1__range__", "a"), ("R2__range__", "b")], [],
         [("G__range__", ([], ["b"]))], [], 0⟩ :=
  ⟨c9_duplicate_handling.1 ⟨[("DUP", "7")], [], [], 8⟩
      ⟨"address-object ipv4 DUP", ["host 10.0.0.3"]⟩ (by decide),
   (c9_duplicate_handling.2.1 ⟨[("SVC", ("TCP", "80"))], []⟩
      ⟨"service-object SVC UDP 53 53", []⟩ "SVC" ("UDP", "53") (by decide)).trans
     (by decide),
   (c9_duplicate_handling.2.2.1
      ⟨[], [("R1__range__", "a"), ("R2__range__", "b")], [], [("G__range__", ([], ["a"]))], [], 0⟩
      ⟨"address-group ipv4 G", ["address-object ipv4 R2"]⟩ "G"
      ⟨[], ["b"], [], []⟩ (by decide) (by decide)).trans (by decide)⟩

end SW
